import Mathlib

/-!
# Naive snapshot driver (`snapshot/naive/naive.go`)

A shallow embedding of the `Naive` snapshot manager: its two in-memory maps,
the four operations `Prepare`, `Commit`, `Rollback`, `Parent`, and the
constructor `NewNaive`.  The file system the driver works on is an explicit
value that is threaded through every call; the outcome of each call into the
operating system (which may fail for reasons the driver cannot see) is an
explicit argument of the operation.

Go's `error` is `Option String` (`none` is `nil`).
-/

namespace naive

/-! ## Paths and the file system -/

/-- A path as the list of its components; `[]` is the directory every path
string is resolved against. -/
abbrev Path := List String

/-- Splitting of a path string at `/`; `cur` holds the characters of the
component being read, most recent first.  Empty components are dropped. -/
def splitComponents : List Char → List Char → List (List Char)
  | [], cur => if cur = [] then [] else [cur.reverse]
  | c :: cs, cur =>
    if c = '/' then
      (if cur = [] then splitComponents cs [] else cur.reverse :: splitComponents cs [])
    else splitComponents cs (c :: cur)

/-- Lexical resolution of `.` and `..` (as `filepath.Clean` does): `.` is
dropped and `..` steps up, staying at the top when already there.  `acc` holds
the components kept so far, most recent first. -/
def resolveDots : List String → List String → List String
  | [], acc => acc.reverse
  | c :: cs, acc =>
    if c = "." then resolveDots cs acc
    else if c = ".." then resolveDots cs acc.tail
    else resolveDots cs (c :: acc)

/-- The path a Go path string denotes.  All strings are resolved against one
fixed directory, the top `[]`: so `"/a/b"`, `"a/b"`, `"a//b/"` and `"a/./c/../b"`
denote the same path, and `""` denotes `[]` (the operating system rejects the
empty name; here calls on it can only succeed more often).  Symbolic links are
not modelled. -/
def pathOf (s : String) : Path :=
  resolveDots ((splitComponents s.toList []).map String.mk) []

/-- The result of `filepath.Join(p, name)` for a single component `name`. -/
def join (p : Path) (name : String) : Path := p ++ [name]

/-- What a path holds. -/
inductive Node where
  | file (content : String)
  | dir
  deriving DecidableEq, Repr

/-- A directory tree seen from its own top: the entries it holds, each under
its path relative to the top.  Where a path occurs twice the first entry
counts. -/
abbrev Tree := List (Path × Node)

/-- The file system: a tree whose top is the directory `[]`. -/
abbrev FS := List (Path × Node)

/-- The node at path `q` (`os.Stat`), `none` where nothing exists. -/
def stat : FS → Path → Option Node
  | [], _ => none
  | (p, nd) :: rest, q => if p = q then some nd else stat rest q

/-- Whether `p` is `q` or one of its ancestors. -/
def under (p q : Path) : Bool := p.isPrefixOf q

/-- The tree found at `p`, with paths relative to `p`. -/
def subtree (fs : FS) (p : Path) : Tree :=
  fs.filterMap (fun e => if under p e.1 then some (e.1.drop p.length, e.2) else none)

/-- The entries of the tree `t` when its top is placed at `p`. -/
def reroot (t : Tree) (p : Path) : FS := t.map (fun e => (p ++ e.1, e.2))

/-- The file system without `p` and everything below it. -/
def removeTree (fs : FS) (p : Path) : FS := fs.filter (fun e => !under p e.1)

/-- The file system with the whole tree at `p` replaced by `t`. -/
def graft (fs : FS) (p : Path) (t : Tree) : FS := reroot t p ++ removeTree fs p

/-- The file system with the single path `p` set to `nd`. -/
def setNode (fs : FS) (p : Path) (nd : Node) : FS := (p, nd) :: fs

/-- Whether an existing directory stands at `p`. -/
def isDir (fs : FS) (p : Path) : Bool := stat fs p = some Node.dir

/-- Whether the directory that is to contain `p` exists. -/
def parentIsDir (fs : FS) (p : Path) : Bool := isDir fs p.dropLast

/-- Whether something exists strictly below `p`. -/
def hasChild (fs : FS) (p : Path) : Bool := fs.any (fun e => under p e.1 && e.1 != p)

/-- The outcome of a call into the operating system: the error (`none` for
`nil`) and the file system afterwards. -/
structure IOStep where
  err : Option String
  fs : FS

/-- Outcome of `ioutil.TempDir`: the created directory as well. -/
structure TempDirStep where
  name : Path
  err : Option String
  fs : FS

/-- Model of `ioutil.TempDir(dir, pfx)`.  `suffix` is the random suffix the
library settles on and `fault` an error injected by the environment.  The call
fails when `dir` is not a directory or the chosen name is taken; otherwise the
new directory is created. -/
def TempDir (fs : FS) (dir : Path) (pfx suffix : String) (fault : Option String) :
    TempDirStep :=
  match fault with
  | some e => { name := [], err := some e, fs := fs }
  | none =>
    if !isDir fs dir then { name := [], err := some "no such file or directory", fs := fs }
    else if (stat fs (join dir (pfx ++ suffix))).isSome then
      { name := [], err := some "file exists", fs := fs }
    else { name := join dir (pfx ++ suffix), err := none,
           fs := setNode fs (join dir (pfx ++ suffix)) Node.dir }

/-- Model of `ioutil.WriteFile(p, data, perm)`, which opens the file with
create and truncate and then writes.  A fault `(e, none)` makes the open fail
with `e`; the open also fails when `p` is a directory or the containing
directory is missing; a failed open leaves the file system as it was.  A fault
`(e, some part)` makes the write fail with `e` after the file was created: it
is left holding `part` (empty, or some of the data). -/
def WriteFile (fs : FS) (p : Path) (data : String) (fault : Option (String × Option String)) :
    IOStep :=
  match fault with
  | some (e, none) => { err := some e, fs := fs }
  | some (e, some part) =>
    if isDir fs p then { err := some "is a directory", fs := fs }
    else if !parentIsDir fs p then { err := some "no such file or directory", fs := fs }
    else { err := some e, fs := setNode fs p (Node.file part) }
  | none =>
    if isDir fs p then { err := some "is a directory", fs := fs }
    else if !parentIsDir fs p then { err := some "no such file or directory", fs := fs }
    else { err := none, fs := setNode fs p (Node.file data) }

/-- Modelled from the spec: the directory-copy utility `fs.CopyDir(dst, src)`
of package `containerd/fs`, whose source is not part of this development.  It
"recursively copies a directory tree" and "fails with an I/O error on partial
failure, leaving the destination in an undefined partial state".  On success
the tree at `dst` is a faithful copy of the tree that stood at `src`; an
injected fault `(e, junk)` fails with `e` and leaves the arbitrary tree `junk`
at `dst`.  Nothing outside `dst` changes.  The copy is refused, with nothing
changed, when `src` is not a directory, when `dst` is a file, or when `dst`
does not exist and has no containing directory. -/
def CopyDir (fs : FS) (dst src : Path) (fault : Option (String × Tree)) : IOStep :=
  if !isDir fs src then { err := some "source is not directory", fs := fs }
  else if !(isDir fs dst || ((stat fs dst).isNone && parentIsDir fs dst)) then
    { err := some "cannot copy to destination", fs := fs }
  else
    match fault with
    | some (e, junk) => { err := some e, fs := graft fs dst junk }
    | none => { err := none, fs := graft fs dst (subtree fs src) }

/-- Model of `os.Rename(old, new)` as rename(2).  Fails, with nothing changed,
on an injected fault, when `old` does not exist, when one path is a proper
ancestor of the other, when `new` exists and a directory would replace a file,
a file a directory, or a directory a directory that is not empty, or when the
directory that is to contain `new` is missing.  Renaming a path to itself does
nothing.  Otherwise the tree at `old` moves to `new`.  (Later versions of
`os.Rename` refuse every existing directory at `new` before the system call;
that only takes successes away, which `fault` covers.) -/
def Rename (fs : FS) (old new : Path) (fault : Option String) : IOStep :=
  match fault with
  | some e => { err := some e, fs := fs }
  | none =>
    if (stat fs old).isNone then { err := some "no such file or directory", fs := fs }
    else if old = new then { err := none, fs := fs }
    else if under old new || under new old then
      { err := some "invalid argument", fs := fs }
    else if (stat fs new).isSome && (isDir fs old != isDir fs new) then
      { err := some "not a directory", fs := fs }
    else if (stat fs new).isSome && hasChild fs new then
      { err := some "file exists", fs := fs }
    else if !parentIsDir fs new then { err := some "no such file or directory", fs := fs }
    else
      { err := none,
        fs := reroot (subtree fs old) new ++ removeTree (removeTree fs new) old }

/-- Model of `os.RemoveAll(p)`.  On success nothing is left at or below `p`
(removing a path that does not exist succeeds).  An injected fault
`(e, keep)` fails with `e` after a partial deletion: the paths below `p`
selected by `keep` survive. -/
def RemoveAll (fs : FS) (p : Path) (fault : Option (String × (Path → Bool))) : IOStep :=
  match fault with
  | some (e, keep) =>
    { err := some e, fs := fs.filter (fun x => !(under p x.1 && !keep x.1)) }
  | none => { err := none, fs := removeTree fs p }

/-- Model of `os.MkdirAll(p, perm)`: fails (nothing changed) on an injected
fault or when `p` or one of its ancestors is a file; otherwise `p` and every
missing ancestor become directories. -/
def MkdirAll (fs : FS) (p : Path) (fault : Option String) : IOStep :=
  match fault with
  | some e => { err := some e, fs := fs }
  | none =>
    if p.inits.any (fun a => (stat fs a).isSome && !isDir fs a) then
      { err := some "not a directory", fs := fs }
    else
      { err := none,
        fs := ((p.inits.filter (fun a => (stat fs a).isNone)).map (fun a => (a, Node.dir)))
                ++ fs }

/-! ## The manager -/

/-- The Go map `map[string]V`: the value stored under each key, `none` for a
key that is not present. -/
abbrev GoMap (V : Type) := String → Option V

/-- The map made by `make(map[string]V)`. -/
def GoMap.empty {V : Type} : GoMap V := fun _ => none

/-- The assignment `m[k] = v`. -/
def GoMap.set {V : Type} (m : GoMap V) (k : String) (v : V) : GoMap V :=
  fun x => if x = k then some v else m x

/-- The statement `delete(m, k)`. -/
def GoMap.delete {V : Type} (m : GoMap V) (k : String) : GoMap V :=
  fun x => if x = k then none else m x

/-- The type `containerd.Mount`, declared outside this package (its field
`Type` is `Kind` here). -/
structure Mount where
  Kind : String
  Source : String
  Options : List String
  deriving DecidableEq, Repr

/-- The struct `activeNaiveSnapshot`; `metadata` is the path `ioutil.TempDir`
returned, kept in resolved form. -/
structure activeNaiveSnapshot where
  parent : String
  metadata : Path
  deriving DecidableEq, Repr

/-- The struct `Naive`. -/
structure Naive where
  root : String
  active : GoMap activeNaiveSnapshot
  parents : GoMap String

/-- Model of `errors.Wrap(err, message)` of `github.com/pkg/errors`, whose
documentation reads "If err is nil, Wrap returns nil." -/
def Wrap (err : Option String) (message : String) : Option String :=
  err.map (fun e => message ++ ": " ++ e)

/-- Model of `errors.Errorf` and `fmt.Errorf`: always an error. -/
def Errorf (message : String) : Option String := some message

/-- Result of `NewNaive`: the manager (`none` for `nil`), the error, and the
file system afterwards. -/
structure NewResult where
  n : Option Naive
  err : Option String
  fs : FS

/-- Result of `Prepare`: the returned mounts (`[]` for `nil`), the error, the
manager and the file system afterwards. -/
structure PrepareResult where
  mounts : List Mount
  err : Option String
  n : Naive
  fs : FS

/-- Result of `Commit` and `Rollback`. -/
structure OpResult where
  err : Option String
  n : Naive
  fs : FS

/-- What the environment decides during one `Prepare`: the suffix
`ioutil.TempDir` settles on and a possible fault for each call. -/
structure PrepareEnv where
  suffix : String
  tempDir : Option String
  writeTarget : Option (String × Option String)
  writeParent : Option (String × Option String)
  copy : Option (String × Tree)

/-- What the environment decides during one `Commit`. -/
structure CommitEnv where
  copy : Option (String × Tree)
  rename : Option String

/-- The function `NewNaive(root)`. -/
def NewNaive (fs : FS) (root : String) (fault : Option String) : NewResult :=
  let m := MkdirAll fs (pathOf root) fault
  if m.err.isSome then { n := none, err := m.err, fs := m.fs }
  else
    { n := some { root := root, active := GoMap.empty, parents := GoMap.empty },
      err := none, fs := m.fs }

/-- The method `Prepare(dst, parent)`.  `err` is the function-scoped variable
assigned by the call of `ioutil.TempDir`; the `err` of each later
`if err := ...; err != nil` is local to that statement. -/
def Naive.Prepare (n : Naive) (fs : FS) (dst parent : String) (env : PrepareEnv) :
    PrepareResult :=
  let t := TempDir fs (pathOf n.root) "active-" env.suffix env.tempDir
  let metadataRoot := t.name
  let err := t.err
  if err.isSome then
    { mounts := [], err := Wrap err "failed to created transaction dir", n := n, fs := t.fs }
  else
    let w := WriteFile t.fs (join metadataRoot "target") dst env.writeTarget
    if w.err.isSome then
      { mounts := [], err := Wrap w.err "failed to write target to disk", n := n, fs := w.fs }
    else if parent ≠ "" then
      if (n.parents parent).isNone then
        { mounts := [], err := Wrap err "specified parent does not exist", n := n, fs := w.fs }
      else
        let wp := WriteFile w.fs (join metadataRoot "parent") parent env.writeParent
        if wp.err.isSome then
          { mounts := [], err := Wrap wp.err "error specifying parent", n := n, fs := wp.fs }
        else
          let c := CopyDir wp.fs (pathOf dst) (join (pathOf parent) "data") env.copy
          if c.err.isSome then
            { mounts := [], err := Wrap c.err "copying of parent failed", n := n, fs := c.fs }
          else
            { mounts := [], err := none,
              n := { n with active :=
                n.active.set dst { parent := parent, metadata := metadataRoot } },
              fs := c.fs }
    else
      { mounts := [], err := none,
        n := { n with active :=
          n.active.set dst { parent := parent, metadata := metadataRoot } },
        fs := w.fs }

/-- The method `Commit(diff, dst)`. -/
def Naive.Commit (n : Naive) (fs : FS) (diff dst : String) (env : CommitEnv) : OpResult :=
  match n.active dst with
  | none => { err := Errorf (dst ++ " is not an active transaction"), n := n, fs := fs }
  | some active =>
    let c := CopyDir fs (join active.metadata "data") (pathOf dst) env.copy
    if c.err.isSome then
      { err := Wrap c.err "copying of parent failed", n := n, fs := c.fs }
    else
      let r := Rename c.fs active.metadata (pathOf diff) env.rename
      if r.err.isSome then
        { err := Wrap r.err "failed to rename metadata into diff", n := n, fs := r.fs }
      else
        { err := none,
          n := { n with parents := n.parents.set diff active.parent,
                        active := n.active.delete dst },
          fs := r.fs }

/-- The method `Rollback(dst)`. -/
def Naive.Rollback (n : Naive) (fs : FS) (dst : String)
    (fault : Option (String × (Path → Bool))) : OpResult :=
  match n.active dst with
  | none => { err := Errorf ("\"" ++ dst ++ "\" must be an active snapshot"), n := n, fs := fs }
  | some active =>
    let r := RemoveAll fs active.metadata fault
    { err := r.err, n := { n with active := n.active.delete dst }, fs := r.fs }

/-- The method `Parent(diff)`: the map lookup, `""` for a missing key. -/
def Naive.Parent (n : Naive) (diff : String) : String := (n.parents diff).getD ""

/-! ## Runs -/

/-- One call on the manager together with what the environment decides during
it; `mutate` is any change of the file system made from outside (the caller
writing into a destination, for one) between two calls. -/
inductive Call where
  | prepare (dst parent : String) (env : PrepareEnv)
  | commit (diff dst : String) (env : CommitEnv)
  | rollback (dst : String) (fault : Option (String × (Path → Bool)))
  | parent (diff : String)
  | mutate (fs : FS)

/-- The manager and the file system it works on. -/
structure World where
  n : Naive
  fs : FS

/-- One call: the world afterwards and the error the call returned (`none`
for `Parent`, which returns no error, and for a change from outside). -/
def step (w : World) : Call → World × Option String
  | Call.prepare dst parent env =>
    ({ n := (w.n.Prepare w.fs dst parent env).n, fs := (w.n.Prepare w.fs dst parent env).fs },
      (w.n.Prepare w.fs dst parent env).err)
  | Call.commit diff dst env =>
    ({ n := (w.n.Commit w.fs diff dst env).n, fs := (w.n.Commit w.fs diff dst env).fs },
      (w.n.Commit w.fs diff dst env).err)
  | Call.rollback dst fault =>
    ({ n := (w.n.Rollback w.fs dst fault).n, fs := (w.n.Rollback w.fs dst fault).fs },
      (w.n.Rollback w.fs dst fault).err)
  | Call.parent _ => (w, none)
  | Call.mutate fs => ({ n := w.n, fs := fs }, none)

/-- A sequence of calls: the world at the end and the log of the calls made,
each with the error it returned. -/
def run : World → List Call → World × List (Call × Option String)
  | w, [] => (w, [])
  | w, c :: cs => ((run (step w c).1 cs).1, (c, (step w c).2) :: (run (step w c).1 cs).2)

/-! ## A concrete run

A file system holding only the top directory, a manager made on root `r`, and
the chain of calls `Prepare`, caller writes, `Commit`, `Prepare`, `Commit`. -/

/-- A file system with nothing but the top directory. -/
def exFs0 : FS := [([], Node.dir)]

/-- The call `NewNaive("r")` on it. -/
def exNew : NewResult := NewNaive exFs0 "r" none

/-- The manager `NewNaive("r")` returns. -/
def exN0 : Naive := { root := "r", active := GoMap.empty, parents := GoMap.empty }

/-- An environment without faults in which `ioutil.TempDir` picks `suffix`. -/
def exEnv (suffix : String) : PrepareEnv :=
  { suffix := suffix, tempDir := none, writeTarget := none, writeParent := none, copy := none }

/-- A `Commit` environment without faults. -/
def exCommitEnv : CommitEnv := { copy := none, rename := none }

/-- The call `Prepare("dst1", "")`. -/
def exP1 : PrepareResult := exN0.Prepare exNew.fs "dst1" "" (exEnv "1")

/-- The tree the caller puts at `dst1`: one file `f` with content `x`. -/
def exTree : Tree := [([], Node.dir), (["f"], Node.file "x")]

/-- The file system after the caller has written `dst1`. -/
def exFsT : FS := graft exP1.fs ["dst1"] exTree

/-- The call `Commit("L1", "dst1")`. -/
def exC1 : OpResult := exP1.n.Commit exFsT "L1" "dst1" exCommitEnv

/-- The call `Prepare("dst2", "L1")`. -/
def exP2 : PrepareResult := exC1.n.Prepare exC1.fs "dst2" "L1" (exEnv "2")

/-- The call `Commit("L2", "dst2")`. -/
def exC2 : OpResult := exP2.n.Commit exP2.fs "L2" "dst2" exCommitEnv

/-- The call `Prepare("r", "")`: a destination that is the root itself. -/
def exPr : PrepareResult := exN0.Prepare exNew.fs "r" "" (exEnv "1")

/-- An environment in which `ioutil.TempDir` picks `1` and the write of the
target file fails after the file was created, leaving it empty. -/
def exEnvWriteFails : PrepareEnv :=
  { suffix := "1", tempDir := none,
    writeTarget := some ("no space left on device", some ""),
    writeParent := none, copy := none }

/-- A failed deletion that removes nothing. -/
def exRemoveFails : Option (String × (Path → Bool)) :=
  some ("permission denied", fun _ => true)

/-- The whole concrete run as a list of calls. -/
def exChainCalls : List Call :=
  [Call.prepare "dst1" "" (exEnv "1"), Call.mutate exFsT,
   Call.commit "L1" "dst1" exCommitEnv, Call.prepare "dst2" "L1" (exEnv "2"),
   Call.commit "L2" "dst2" exCommitEnv]

/-- A file system holding the top directory and a directory `a`. -/
def exFsA : FS := [([], Node.dir), (["a"], Node.dir)]

/-- On it, after `NewNaive("r")`: the call `Prepare("a", "")`. -/
def exQ1 : PrepareResult := exN0.Prepare (NewNaive exFsA "r" none).fs "a" "" (exEnv "1")

/-- Then the call `Prepare("b", "")`. -/
def exQ2 : PrepareResult := exQ1.n.Prepare exQ1.fs "b" "" (exEnv "2")

theorem under_iff (p q : Path) : under p q = true ↔ p <+: q := by
  simp [under]

theorem under_append (p r : Path) : under p (p ++ r) = true := by
  simp [under]

theorem under_refl (p : Path) : under p p = true := by
  simp [under]

theorem under_trans {p q r : Path} (h1 : under p q = true) (h2 : under q r = true) :
    under p r = true := by
  rw [under_iff] at *
  exact h1.trans h2

theorem under_join_self (p : Path) (name : String) : under p (join p name) = true := by
  simp [under, join]

theorem join_ne_self (p : Path) (name : String) : join p name ≠ p := by
  intro h
  have := congrArg List.length h
  simp [join] at this

theorem append_eq_iff (p a q : Path) : p ++ a = q ↔ under p q = true ∧ a = q.drop p.length := by
  constructor
  · intro h
    subst h
    simp [under]
  · rintro ⟨h, rfl⟩
    rw [under_iff] at h
    exact List.prefix_iff_eq_append.mp h

theorem stat_setNode (fs : FS) (p : Path) (nd : Node) (q : Path) :
    stat (setNode fs p nd) q = if p = q then some nd else stat fs q := rfl

theorem stat_append (a b : FS) (q : Path) :
    stat (a ++ b) q = if (stat a q).isSome then stat a q else stat b q := by
  induction a with
  | nil => simp [stat]
  | cons e a ih =>
    obtain ⟨p, nd⟩ := e
    simp only [List.cons_append, stat]
    split_ifs <;> simp_all

theorem stat_filter (f : Path → Bool) (fs : FS) (q : Path) :
    stat (fs.filter (fun e => f e.1)) q = if f q then stat fs q else none := by
  induction fs with
  | nil => simp [stat]
  | cons e fs ih =>
    obtain ⟨p, nd⟩ := e
    by_cases hp : f p = true
    · simp only [List.filter_cons, hp, if_true, stat, ih]
      by_cases hpq : p = q
      · subst hpq; simp [hp]
      · simp [hpq]
    · have hp2 : f p = false := by simpa using hp
      simp only [List.filter_cons, hp2, stat, Bool.false_eq_true, if_false]
      rw [ih]
      by_cases hpq : p = q
      · subst hpq; simp [hp2]
      · simp [hpq]

theorem stat_removeTree (fs : FS) (p q : Path) :
    stat (removeTree fs p) q = if under p q then none else stat fs q := by
  unfold removeTree
  rw [stat_filter (fun x => !under p x) fs q]
  cases under p q <;> simp

theorem stat_reroot (t : Tree) (p q : Path) :
    stat (reroot t p) q = if under p q then stat t (q.drop p.length) else none := by
  induction t with
  | nil => simp [reroot, stat]
  | cons e t ih =>
    obtain ⟨a, nd⟩ := e
    unfold reroot at ih ⊢
    simp only [List.map_cons, stat, ih]
    by_cases h : p ++ a = q
    · have h2 := (append_eq_iff p a q).mp h
      simp [h, h2.1, ← h2.2]
    · by_cases hu : under p q = true
      · have : ¬ a = List.drop p.length q := fun ha => h ((append_eq_iff p a q).mpr ⟨hu, ha⟩)
        simp [h, hu, this]
      · simp [h, hu]

theorem stat_subtree (fs : FS) (p q : Path) :
    stat (subtree fs p) q = stat fs (p ++ q) := by
  induction fs with
  | nil => simp [subtree, stat]
  | cons e fs ih =>
    obtain ⟨a, nd⟩ := e
    unfold subtree at ih ⊢
    by_cases hu : under p a = true
    · simp only [List.filterMap_cons, hu, if_true, stat, ih]
      by_cases h : a = p ++ q
      · subst h; simp
      · have : ¬ List.drop p.length a = q := fun hq =>
          h ((append_eq_iff p q a).mpr ⟨hu, hq.symm⟩).symm
        simp [h, this]
    · have hu2 : under p a = false := by simpa using hu
      have : ¬ a = p ++ q := by
        intro h; subst h; simp [under] at hu
      simp only [List.filterMap_cons, hu2, stat, Bool.false_eq_true, if_false]
      rw [ih]
      simp [this]

theorem stat_graft (fs : FS) (p : Path) (t : Tree) (q : Path) :
    stat (graft fs p t) q = if under p q then stat t (q.drop p.length) else stat fs q := by
  unfold graft
  rw [stat_append, stat_reroot, stat_removeTree]
  by_cases hu : under p q = true
  · simp only [hu, if_true]
    cases stat t (List.drop p.length q) <;> simp
  · simp [hu]

/-! ## What a successful call into the operating system did -/

theorem TempDir_ok (fs : FS) (dir : Path) (pfx suffix : String) (fault : Option String)
    (h : (TempDir fs dir pfx suffix fault).err = none) :
    isDir fs dir = true ∧ stat fs (join dir (pfx ++ suffix)) = none ∧
    (TempDir fs dir pfx suffix fault).name = join dir (pfx ++ suffix) ∧
    (TempDir fs dir pfx suffix fault).fs = setNode fs (join dir (pfx ++ suffix)) Node.dir := by
  revert h
  unfold TempDir
  cases fault with
  | some e => simp
  | none =>
    simp only []
    split_ifs with h1 h2
    · simp
    · simp
    · intro _
      refine ⟨by simpa using h1, ?_, rfl, rfl⟩
      cases hs : stat fs (join dir (pfx ++ suffix)) with
      | none => rfl
      | some x => simp [hs] at h2

theorem WriteFile_ok (fs : FS) (p : Path) (data : String)
    (fault : Option (String × Option String))
    (h : (WriteFile fs p data fault).err = none) :
    (WriteFile fs p data fault).fs = setNode fs p (Node.file data) := by
  revert h
  unfold WriteFile
  rcases fault with _ | ⟨e, _ | part⟩
  · dsimp only
    split_ifs <;> simp
  · simp
  · dsimp only
    split_ifs <;> simp

/-- The file system after any `WriteFile`: unchanged, or with a file at `p`. -/
theorem WriteFile_cases (fs : FS) (p : Path) (data : String)
    (fault : Option (String × Option String)) :
    (WriteFile fs p data fault).fs = fs ∨
    ∃ content, (WriteFile fs p data fault).fs = setNode fs p (Node.file content) := by
  unfold WriteFile
  rcases fault with _ | ⟨e, _ | part⟩
  · dsimp only
    split_ifs
    · exact Or.inl rfl
    · exact Or.inl rfl
    · exact Or.inr ⟨data, rfl⟩
  · exact Or.inl rfl
  · dsimp only
    split_ifs
    · exact Or.inl rfl
    · exact Or.inl rfl
    · exact Or.inr ⟨part, rfl⟩

theorem WriteFile_frame (fs : FS) (p : Path) (data : String)
    (fault : Option (String × Option String)) (q : Path) (hq : p ≠ q) :
    stat (WriteFile fs p data fault).fs q = stat fs q := by
  rcases WriteFile_cases fs p data fault with h | ⟨content, h⟩
  · rw [h]
  · rw [h, stat_setNode, if_neg hq]

theorem CopyDir_ok (fs : FS) (dst src : Path) (fault : Option (String × Tree))
    (h : (CopyDir fs dst src fault).err = none) :
    isDir fs src = true ∧ (CopyDir fs dst src fault).fs = graft fs dst (subtree fs src) := by
  revert h
  unfold CopyDir
  split_ifs with h1 h2
  · simp
  · simp
  · cases fault with
    | some e => simp
    | none =>
      intro _
      exact ⟨by simpa using h1, rfl⟩

theorem Rename_ok (fs : FS) (old new : Path) (fault : Option String)
    (h : (Rename fs old new fault).err = none) :
    (old = new ∧ (Rename fs old new fault).fs = fs) ∨
    (under old new = false ∧ under new old = false ∧
      (Rename fs old new fault).fs =
        reroot (subtree fs old) new ++ removeTree (removeTree fs new) old) := by
  revert h
  unfold Rename
  cases fault with
  | some e => simp
  | none =>
    simp only []
    split_ifs with h1 h2 h3 h4 h5 h6
    · simp
    · intro _; exact Or.inl ⟨h2, rfl⟩
    · simp
    · simp
    · simp
    · simp
    · intro _
      simp only [Bool.or_eq_true, not_or, Bool.not_eq_true] at h3
      exact Or.inr ⟨h3.1, h3.2, rfl⟩

theorem TempDir_err (fs : FS) (dir : Path) (pfx suffix : String) (fault : Option String)
    (h : (TempDir fs dir pfx suffix fault).err ≠ none) :
    (TempDir fs dir pfx suffix fault).fs = fs := by
  revert h
  unfold TempDir
  cases fault with
  | some e => simp
  | none =>
    dsimp only
    split_ifs <;> simp

theorem under_join_false {m q : Path} (name : String) (h : under m q = false) :
    join m name ≠ q := by
  intro hq
  subst hq
  rw [under_join_self] at h
  exact Bool.noConfusion h

theorem under_ne {m q : Path} (h : under m q = false) : m ≠ q := by
  intro hq
  subst hq
  rw [under_refl] at h
  exact Bool.noConfusion h

/-- Two ancestors of one path are comparable. -/
theorem under_or_under {m d r : Path} (h1 : under m r = true) (h2 : under d r = true) :
    under m d = true ∨ under d m = true := by
  rw [under_iff] at h1 h2
  rw [under_iff, under_iff]
  exact List.prefix_or_prefix_of_prefix h1 h2

/-- A path that neither contains nor lies inside `m` has nothing below it
that lies inside `m`. -/
theorem under_append_false {m d : Path} (h1 : under m d = false) (h2 : under d m = false)
    (q : Path) : under m (d ++ q) = false := by
  cases h : under m (d ++ q) with
  | false => rfl
  | true =>
    rcases under_or_under h (under_append d q) with h3 | h3
    · rw [h3] at h1; exact Bool.noConfusion h1
    · rw [h3] at h2; exact Bool.noConfusion h2

/-- The node at each path after the tree at `old` has moved to `new`. -/
theorem stat_moved (fs : FS) (old new q : Path) :
    stat (reroot (subtree fs old) new ++ removeTree (removeTree fs new) old) q =
      if under new q then stat fs (old ++ q.drop new.length)
      else if under old q then none else stat fs q := by
  rw [stat_append, stat_reroot, stat_removeTree, stat_removeTree, stat_subtree]
  by_cases hn : under new q = true
  · simp only [hn, if_true]
    cases stat fs (old ++ List.drop new.length q) <;> simp
  · simp [hn]

/-- The manager of the concrete run is the one `NewNaive("r")` returns. -/
theorem exNew_manager : exNew.n = some exN0 ∧ exNew.err = none := ⟨rfl, rfl⟩

theorem Wrap_eq_none (err : Option String) (message : String) :
    Wrap err message = none ↔ err = none := by
  cases err <;> simp [Wrap]

theorem GoMap.set_same {V : Type} (m : GoMap V) (k : String) (v : V) :
    m.set k v k = some v := by
  simp [GoMap.set]

theorem GoMap.delete_same {V : Type} (m : GoMap V) (k : String) :
    m.delete k k = none := by
  simp [GoMap.delete]

/-- `Prepare` never changes the parent index or the root. -/
theorem Prepare_parents (n : Naive) (fs : FS) (dst parent : String) (env : PrepareEnv) :
    (n.Prepare fs dst parent env).n.parents = n.parents ∧
    (n.Prepare fs dst parent env).n.root = n.root := by
  unfold Naive.Prepare
  dsimp only
  split_ifs <;> exact ⟨rfl, rfl⟩

theorem ne_none_of_isSome {α : Type} {o : Option α} (h : o.isSome = true) : o ≠ none := by
  cases o <;> simp at h ⊢

theorem eq_none_of_not_isSome {α : Type} {o : Option α} (h : ¬ o.isSome = true) : o = none := by
  cases o <;> simp at h ⊢

/-- A `Prepare` that returns an error leaves the manager as it was. -/
theorem Prepare_err_manager (n : Naive) (fs : FS) (dst parent : String) (env : PrepareEnv)
    (h : (n.Prepare fs dst parent env).err ≠ none) :
    (n.Prepare fs dst parent env).n = n := by
  revert h
  unfold Naive.Prepare
  dsimp only
  split_ifs <;> intro h <;> first | rfl | exact absurd rfl h

/-- A `Prepare` that returns no error, for a parent that is empty or
committed, registers `dst` with that parent and the new directory. -/
theorem Prepare_ok_registers (n : Naive) (fs : FS) (dst parent : String) (env : PrepareEnv)
    (hp : parent = "" ∨ n.parents parent ≠ none)
    (h : (n.Prepare fs dst parent env).err = none) :
    (n.Prepare fs dst parent env).n.active =
      n.active.set dst
        { parent := parent, metadata := join (pathOf n.root) ("active-" ++ env.suffix) } := by
  revert h
  unfold Naive.Prepare
  dsimp only
  split_ifs with h1 h2 h3 h4 h5 h6
  · intro h; rw [Wrap_eq_none] at h; exact absurd h (ne_none_of_isSome h1)
  · intro h; rw [Wrap_eq_none] at h; exact absurd h (ne_none_of_isSome h2)
  · intro _
    rcases hp with hp | hp
    · exact absurd hp h3
    · cases hpp : n.parents parent with
      | none => exact absurd hpp hp
      | some x => simp [hpp] at h4
  · intro h; rw [Wrap_eq_none] at h; exact absurd h (ne_none_of_isSome h5)
  · intro h; rw [Wrap_eq_none] at h; exact absurd h (ne_none_of_isSome h6)
  · intro _
    rw [(TempDir_ok fs (pathOf n.root) "active-" env.suffix env.tempDir
      (eq_none_of_not_isSome h1)).2.2.1]
  · intro _
    rw [(TempDir_ok fs (pathOf n.root) "active-" env.suffix env.tempDir
      (eq_none_of_not_isSome h1)).2.2.1]

/-- A `Commit` that returns an error leaves the manager as it was. -/
theorem Commit_err_manager (n : Naive) (fs : FS) (diff dst : String) (env : CommitEnv)
    (h : (n.Commit fs diff dst env).err ≠ none) :
    (n.Commit fs diff dst env).n = n := by
  revert h
  unfold Naive.Commit
  cases n.active dst with
  | none => simp
  | some a =>
    simp only []
    split_ifs <;> simp

/-- What a `Commit` that returns no error did to the manager. -/
theorem Commit_ok_manager (n : Naive) (fs : FS) (diff dst : String) (env : CommitEnv)
    (h : (n.Commit fs diff dst env).err = none) :
    ∃ a, n.active dst = some a ∧
      (n.Commit fs diff dst env).n.parents = n.parents.set diff a.parent ∧
      (n.Commit fs diff dst env).n.active = n.active.delete dst ∧
      (n.Commit fs diff dst env).n.root = n.root := by
  revert h
  unfold Naive.Commit
  cases n.active dst with
  | none => simp [Errorf]
  | some a =>
    simp only []
    split_ifs with h1 h2
    · simp only [Wrap_eq_none]; intro h; simp [h] at h1
    · simp only [Wrap_eq_none]; intro h; simp [h] at h2
    · intro _; exact ⟨a, rfl, rfl, rfl, rfl⟩

/-- What a `Commit` that returns no error did to the file system: the tree at
`dst` was copied to `data` inside the metadata directory, which then moved to
`diff` (or stayed, when `diff` names the metadata directory itself). -/
theorem Commit_ok_fs (n : Naive) (fs : FS) (diff dst : String) (env : CommitEnv)
    (a : activeNaiveSnapshot) (hact : n.active dst = some a)
    (h : (n.Commit fs diff dst env).err = none) :
    isDir fs (pathOf dst) = true ∧
    ((a.metadata = pathOf diff ∧
        (n.Commit fs diff dst env).fs =
          graft fs (join a.metadata "data") (subtree fs (pathOf dst))) ∨
     (under a.metadata (pathOf diff) = false ∧ under (pathOf diff) a.metadata = false ∧
        (n.Commit fs diff dst env).fs =
          reroot (subtree (graft fs (join a.metadata "data") (subtree fs (pathOf dst)))
              a.metadata) (pathOf diff) ++
            removeTree (removeTree
              (graft fs (join a.metadata "data") (subtree fs (pathOf dst))) (pathOf diff))
              a.metadata)) := by
  revert h
  unfold Naive.Commit
  rw [hact]
  dsimp only
  split_ifs with h1 h2
  · intro h; rw [Wrap_eq_none] at h; exact absurd h (ne_none_of_isSome h1)
  · intro h; rw [Wrap_eq_none] at h; exact absurd h (ne_none_of_isSome h2)
  · intro _
    have hc := CopyDir_ok _ _ _ _ (eq_none_of_not_isSome h1)
    have hr := Rename_ok _ _ _ _ (eq_none_of_not_isSome h2)
    refine ⟨hc.1, ?_⟩
    rcases hr with ⟨he, hfs⟩ | ⟨hu1, hu2, hfs⟩
    · exact Or.inl ⟨he, by rw [← hc.2]; exact hfs⟩
    · exact Or.inr ⟨hu1, hu2, by rw [← hc.2]; exact hfs⟩

/-- What a `Prepare` with a committed, non-empty parent that returns no error
did to the file system. -/
theorem Prepare_ok_fs_parent (n : Naive) (fs : FS) (dst parent : String) (env : PrepareEnv)
    (hp : parent ≠ "") (hk : n.parents parent ≠ none)
    (h : (n.Prepare fs dst parent env).err = none) :
    stat fs (join (pathOf n.root) ("active-" ++ env.suffix)) = none ∧
    (n.Prepare fs dst parent env).fs =
      graft
        (setNode (setNode (setNode fs (join (pathOf n.root) ("active-" ++ env.suffix)) Node.dir)
          (join (join (pathOf n.root) ("active-" ++ env.suffix)) "target") (Node.file dst))
          (join (join (pathOf n.root) ("active-" ++ env.suffix)) "parent") (Node.file parent))
        (pathOf dst)
        (subtree
          (setNode (setNode (setNode fs (join (pathOf n.root) ("active-" ++ env.suffix))
            Node.dir)
            (join (join (pathOf n.root) ("active-" ++ env.suffix)) "target") (Node.file dst))
            (join (join (pathOf n.root) ("active-" ++ env.suffix)) "parent")
            (Node.file parent))
          (join (pathOf parent) "data")) := by
  revert h
  unfold Naive.Prepare
  dsimp only
  split_ifs with h1 h2 h3 h4 h5
  · intro h; rw [Wrap_eq_none] at h; exact absurd h (ne_none_of_isSome h1)
  · intro h; rw [Wrap_eq_none] at h; exact absurd h (ne_none_of_isSome h2)
  · cases hpp : n.parents parent with
    | none => exact absurd hpp hk
    | some x => simp [hpp] at h3
  · intro h; rw [Wrap_eq_none] at h; exact absurd h (ne_none_of_isSome h4)
  · intro h; rw [Wrap_eq_none] at h; exact absurd h (ne_none_of_isSome h5)
  · intro _
    have ht := TempDir_ok _ _ _ _ _ (eq_none_of_not_isSome h1)
    have hc := CopyDir_ok _ _ _ _ (eq_none_of_not_isSome h5)
    refine ⟨ht.2.1, ?_⟩
    rw [hc.2, WriteFile_ok _ _ _ _ (eq_none_of_not_isSome h4),
      WriteFile_ok _ _ _ _ (eq_none_of_not_isSome h2), ht.2.2.2, ht.2.2.1]

/-- A path at or above `m/name` is `m/name` itself or is at or above `m`. -/
theorem under_join_cases {s m : Path} {name : String} (h : under s (join m name) = true) :
    s = join m name ∨ under s m = true := by
  rw [under_iff] at h
  rw [under_iff]
  exact List.prefix_concat_iff.mp h

theorem join_append (p : Path) (name : String) (q : Path) :
    join p name ++ q = p ++ name :: q := by
  simp [join]

theorem join_inj {p q : Path} {a b : String} (h : join p a = join q b) : p = q ∧ a = b := by
  unfold join at h
  have := List.append_inj' h rfl
  exact ⟨this.1, by simpa using this.2⟩

theorem drop_append_self (p q : Path) : (p ++ q).drop p.length = q := by
  simp

/-- After a `Commit` that returns no error, `diff/data` holds the tree that
stood at `dst` when `Commit` was called. -/
theorem Commit_ok_data (n : Naive) (fs : FS) (diff dst : String) (env : CommitEnv)
    (a : activeNaiveSnapshot) (hact : n.active dst = some a)
    (h : (n.Commit fs diff dst env).err = none) (q : Path) :
    stat (n.Commit fs diff dst env).fs (join (pathOf diff) "data" ++ q) =
      stat fs (pathOf dst ++ q) := by
  obtain ⟨_, ⟨he, hfs⟩ | ⟨_, _, hfs⟩⟩ := Commit_ok_fs n fs diff dst env a hact h
  · rw [hfs, ← he, stat_graft, under_append, if_pos rfl, drop_append_self, stat_subtree]
  · have hu : under (pathOf diff) (join (pathOf diff) "data" ++ q) = true := by
      rw [join_append]; exact under_append _ _
    rw [hfs, stat_moved, if_pos hu, join_append, drop_append_self, ← join_append,
      stat_graft, under_append, if_pos rfl, drop_append_self, stat_subtree]

/-! ## Runs: the parent index only grows at a successful `Commit` -/

/-- Any call other than a `Commit` that returns success leaves the parent
index as it was. -/
theorem step_parents (w : World) (c : Call)
    (h : ¬ ∃ diff dst env, c = Call.commit diff dst env ∧ (step w c).2 = none) :
    (step w c).1.n.parents = w.n.parents := by
  cases c with
  | prepare dst parent env => exact (Prepare_parents w.n w.fs dst parent env).1
  | commit diff dst env =>
    have herr : (w.n.Commit w.fs diff dst env).err ≠ none :=
      fun he => h ⟨diff, dst, env, rfl, he⟩
    show (w.n.Commit w.fs diff dst env).n.parents = w.n.parents
    rw [Commit_err_manager w.n w.fs diff dst env herr]
  | rollback dst fault =>
    show (w.n.Rollback w.fs dst fault).n.parents = w.n.parents
    unfold Naive.Rollback
    cases w.n.active dst <;> rfl
  | parent diff => rfl
  | mutate fs => rfl

/-- A key of the parent index after one call was a key before, or the call
was a successful `Commit` for it. -/
theorem step_parents_key (w : World) (c : Call) (diff : String)
    (h : (step w c).1.n.parents diff ≠ none) :
    w.n.parents diff ≠ none ∨ ∃ dst env, c = Call.commit diff dst env ∧ (step w c).2 = none := by
  by_cases hc : ∃ d dst env, c = Call.commit d dst env ∧ (step w c).2 = none
  · obtain ⟨d, dst, env, rfl, hok⟩ := hc
    by_cases hd : diff = d
    · subst hd
      exact Or.inr ⟨dst, env, rfl, hok⟩
    · left
      obtain ⟨a, _, hpar, _, _⟩ := Commit_ok_manager w.n w.fs d dst env hok
      have h2 : (w.n.Commit w.fs d dst env).n.parents diff ≠ none := h
      rw [hpar] at h2
      simpa [GoMap.set, hd] using h2
  · left
    rw [step_parents w c hc] at h
    exact h

/-- A key of the parent index at the end of a run was a key at its start, or
the log holds a successful `Commit` for it. -/
theorem run_parents_key (calls : List Call) (w : World) (diff : String)
    (h : (run w calls).1.n.parents diff ≠ none) :
    w.n.parents diff ≠ none ∨
    ∃ dst env, (Call.commit diff dst env, none) ∈ (run w calls).2 := by
  induction calls generalizing w with
  | nil => exact Or.inl h
  | cons c cs ih =>
    rcases ih (step w c).1 h with h1 | ⟨dst, env, hmem⟩
    · rcases step_parents_key w c diff h1 with h2 | ⟨dst, env, hc, hok⟩
      · exact Or.inl h2
      · right
        refine ⟨dst, env, ?_⟩
        show _ ∈ (c, (step w c).2) :: (run (step w c).1 cs).2
        rw [hc] at hok ⊢
        rw [hok]
        exact List.mem_cons_self _ _
    · right
      exact ⟨dst, env, List.mem_cons_of_mem _ hmem⟩

/-! ## The claims -/

/-- C1 (defect of the code): on the manager made by `NewNaive("r")`, where
`L1` was never committed, `Prepare("dst", "L1")` returns a nil error and nil
mounts, because the error it wraps is the nil `err` of `ioutil.TempDir`; the
transaction is not registered. -/
theorem Prepare_unknown_parent_returns_nil :
    exN0.parents "L1" = none ∧
    (exN0.Prepare exNew.fs "dst" "L1" (exEnv "1")).err = none ∧
    (exN0.Prepare exNew.fs "dst" "L1" (exEnv "1")).mounts = [] ∧
    (exN0.Prepare exNew.fs "dst" "L1" (exEnv "1")).n.active "dst" = none := by
  decide

/-- C2 (as stated, refuted): on the fresh manager, where `L1` is not
committed, `Prepare("dst", "L1")` creates the transaction directory
`r/active-1` and its file `target`, neither of which existed before. -/
theorem Prepare_unknown_parent_creates_dir :
    exN0.parents "L1" = none ∧
    stat exNew.fs ["r", "active-1"] = none ∧
    stat exNew.fs ["r", "active-1", "target"] = none ∧
    stat (exN0.Prepare exNew.fs "dst" "L1" (exEnv "1")).fs ["r", "active-1"] =
      some Node.dir ∧
    stat (exN0.Prepare exNew.fs "dst" "L1" (exEnv "1")).fs ["r", "active-1", "target"] =
      some (Node.file "dst") := by
  decide

theorem dropLast_join (p : Path) (name : String) : (join p name).dropLast = p := by
  simp [join]

theorem TempDir_succeeds (fs : FS) (dir : Path) (pfx suffix : String)
    (hd : isDir fs dir = true) (hfree : stat fs (join dir (pfx ++ suffix)) = none) :
    (TempDir fs dir pfx suffix none).err = none := by
  unfold TempDir
  simp [hd, hfree]

/-- What a `WriteFile` that gets past the open does: with no fault it writes
`data`, with a fault after the open it leaves the partial content. -/
theorem WriteFile_opened (fs : FS) (p : Path) (data : String)
    (hnd : stat fs p ≠ some Node.dir) (hpar : isDir fs p.dropLast = true) :
    ((WriteFile fs p data none).err = none ∧
      (WriteFile fs p data none).fs = setNode fs p (Node.file data)) ∧
    ∀ e part, (WriteFile fs p data (some (e, some part))).err = some e ∧
      (WriteFile fs p data (some (e, some part))).fs = setNode fs p (Node.file part) := by
  have h1 : isDir fs p = false := by simp [isDir, hnd]
  unfold WriteFile
  simp [h1, parentIsDir, hpar]

/-- `Prepare` with a non-empty parent that is not committed: the manager is
unchanged, and the file system is what `ioutil.TempDir` and the write of the
target file leave. -/
theorem Prepare_unknown_parent_fs (n : Naive) (fs : FS) (dst parent : String)
    (env : PrepareEnv) (hp : parent ≠ "") (hunk : n.parents parent = none) :
    (n.Prepare fs dst parent env).n = n ∧
    ((TempDir fs (pathOf n.root) "active-" env.suffix env.tempDir).err ≠ none →
      (n.Prepare fs dst parent env).fs = fs) ∧
    ((TempDir fs (pathOf n.root) "active-" env.suffix env.tempDir).err = none →
      (n.Prepare fs dst parent env).fs =
        (WriteFile (setNode fs (join (pathOf n.root) ("active-" ++ env.suffix)) Node.dir)
          (join (join (pathOf n.root) ("active-" ++ env.suffix)) "target") dst
          env.writeTarget).fs) := by
  unfold Naive.Prepare
  dsimp only
  split_ifs with h1 h2 h3
  · exact ⟨rfl, fun h => TempDir_err _ _ _ _ _ h,
      fun h => absurd h (ne_none_of_isSome h1)⟩
  · have ht := TempDir_ok _ _ _ _ _ (eq_none_of_not_isSome h1)
    exact ⟨rfl, fun h => absurd (eq_none_of_not_isSome h1) h,
      fun _ => by rw [ht.2.2.2, ht.2.2.1]⟩
  · have ht := TempDir_ok _ _ _ _ _ (eq_none_of_not_isSome h1)
    exact ⟨rfl, fun h => absurd (eq_none_of_not_isSome h1) h,
      fun _ => by rw [ht.2.2.2, ht.2.2.1]⟩
  all_goals exact absurd (by rw [hunk]; rfl) h3

/-- C2 (amended): for a non-empty parent that is not a key of the parent
index, `Prepare(dst, parent)` leaves the manager (active set, parent index)
unchanged.  On disk it does nothing (`ioutil.TempDir` failed), or creates the
transaction directory `m = root/active-suffix`, or creates `m` and a file
`m/target`; no path outside `m` is touched, so the content of `dst` is
unchanged unless `dst` contains `m` or lies inside it.  The directory is in
fact created and left behind: whenever `ioutil.TempDir` meets no fault, root
is a directory and the name is free, `m` is a directory when `Prepare`
returns, and `m/target` then holds `dst` if the write met no fault and the
partial content if the write failed after the file was created. -/
theorem Prepare_unknown_parent_effects (n : Naive) (fs : FS) (dst parent : String)
    (env : PrepareEnv) (hp : parent ≠ "") (hunk : n.parents parent = none) :
    (n.Prepare fs dst parent env).n = n ∧
    ((n.Prepare fs dst parent env).fs = fs ∨
      (n.Prepare fs dst parent env).fs =
        setNode fs (join (pathOf n.root) ("active-" ++ env.suffix)) Node.dir ∨
      ∃ content, (n.Prepare fs dst parent env).fs =
        setNode (setNode fs (join (pathOf n.root) ("active-" ++ env.suffix)) Node.dir)
          (join (join (pathOf n.root) ("active-" ++ env.suffix)) "target")
          (Node.file content)) ∧
    (∀ q, under (join (pathOf n.root) ("active-" ++ env.suffix)) q = false →
      stat (n.Prepare fs dst parent env).fs q = stat fs q) ∧
    (env.tempDir = none → isDir fs (pathOf n.root) = true →
      stat fs (join (pathOf n.root) ("active-" ++ env.suffix)) = none →
      stat (n.Prepare fs dst parent env).fs (join (pathOf n.root) ("active-" ++ env.suffix))
        = some Node.dir ∧
      (stat fs (join (join (pathOf n.root) ("active-" ++ env.suffix)) "target")
          ≠ some Node.dir →
        (env.writeTarget = none →
          stat (n.Prepare fs dst parent env).fs
            (join (join (pathOf n.root) ("active-" ++ env.suffix)) "target")
            = some (Node.file dst)) ∧
        (∀ e part, env.writeTarget = some (e, some part) →
          stat (n.Prepare fs dst parent env).fs
            (join (join (pathOf n.root) ("active-" ++ env.suffix)) "target")
            = some (Node.file part)))) := by
  obtain ⟨hn, hfail, hsucc⟩ := Prepare_unknown_parent_fs n fs dst parent env hp hunk
  have hcases : (n.Prepare fs dst parent env).fs = fs ∨
      (n.Prepare fs dst parent env).fs =
        setNode fs (join (pathOf n.root) ("active-" ++ env.suffix)) Node.dir ∨
      ∃ content, (n.Prepare fs dst parent env).fs =
        setNode (setNode fs (join (pathOf n.root) ("active-" ++ env.suffix)) Node.dir)
          (join (join (pathOf n.root) ("active-" ++ env.suffix)) "target")
          (Node.file content) := by
    by_cases hT : (TempDir fs (pathOf n.root) "active-" env.suffix env.tempDir).err = none
    · rw [hsucc hT]
      rcases WriteFile_cases
        (setNode fs (join (pathOf n.root) ("active-" ++ env.suffix)) Node.dir)
        (join (join (pathOf n.root) ("active-" ++ env.suffix)) "target") dst
        env.writeTarget with h | ⟨content, h⟩
      · exact Or.inr (Or.inl h)
      · exact Or.inr (Or.inr ⟨content, h⟩)
    · exact Or.inl (hfail hT)
  refine ⟨hn, hcases, ?_, ?_⟩
  · intro q hq
    rcases hcases with h | h | ⟨content, h⟩
    · rw [h]
    · rw [h, stat_setNode, if_neg (under_ne hq)]
    · rw [h, stat_setNode, stat_setNode, if_neg (under_join_false "target" hq),
        if_neg (under_ne hq)]
  · intro hfault hroot hfree
    have hT : (TempDir fs (pathOf n.root) "active-" env.suffix env.tempDir).err = none := by
      rw [hfault]; exact TempDir_succeeds fs _ _ _ hroot hfree
    rw [hsucc hT]
    refine ⟨?_, ?_⟩
    · rw [WriteFile_frame _ _ _ _ _ (join_ne_self _ "target"), stat_setNode, if_pos rfl]
    · intro hnd
      have hnd2 : stat (setNode fs (join (pathOf n.root) ("active-" ++ env.suffix)) Node.dir)
          (join (join (pathOf n.root) ("active-" ++ env.suffix)) "target")
          ≠ some Node.dir := by
        rw [stat_setNode, if_neg (join_ne_self _ "target").symm]
        exact hnd
      have hpar : isDir (setNode fs (join (pathOf n.root) ("active-" ++ env.suffix))
          Node.dir)
          (join (join (pathOf n.root) ("active-" ++ env.suffix)) "target").dropLast
          = true := by
        rw [dropLast_join]
        simp [isDir, stat_setNode]
      obtain ⟨hw1, hw2⟩ := WriteFile_opened _ _ dst hnd2 hpar
      refine ⟨?_, ?_⟩
      · intro hw
        rw [hw, hw1.2, stat_setNode, if_pos rfl]
      · intro e part hw
        rw [hw, (hw2 e part).2, stat_setNode, if_pos rfl]

/-- Witness for the amended C2 on the fresh manager with the uncommitted
parent `L1`: the manager and `dst` are untouched and the transaction directory
with its target file is left on disk. -/
theorem Prepare_unknown_parent_effects_witness :
    (exN0.Prepare exNew.fs "dst" "L1" (exEnv "1")).n = exN0 ∧
    stat (exN0.Prepare exNew.fs "dst" "L1" (exEnv "1")).fs ["dst"] = stat exNew.fs ["dst"] ∧
    stat (exN0.Prepare exNew.fs "dst" "L1" (exEnv "1")).fs
      (join (pathOf exN0.root) ("active-" ++ (exEnv "1").suffix)) = some Node.dir ∧
    stat (exN0.Prepare exNew.fs "dst" "L1" (exEnv "1")).fs
      (join (join (pathOf exN0.root) ("active-" ++ (exEnv "1").suffix)) "target")
      = some (Node.file "dst") :=
  have h := Prepare_unknown_parent_effects exN0 exNew.fs "dst" "L1" (exEnv "1")
    (by decide) (by decide)
  have h4 := h.2.2.2 rfl (by decide) (by decide)
  ⟨h.1, h.2.2.1 ["dst"] (by decide), h4.1, (h4.2 (by decide)).1 rfl⟩

/-- C3: if `Prepare(dst1, "")` succeeds, the caller then leaves the file
system in any state `fsT` (so that any tree stands at `dst1`),
`Commit(L1, dst1)` succeeds and `Prepare(dst2, L1)` succeeds, then the tree at
`dst2` is exactly the tree that stood at `dst1` when `Commit` was called, and
`Parent(L1)` is `""`.  This holds whether or not `dst2` was fresh. -/
theorem round_trip (n : Naive) (fs fsT : FS) (dst1 dst2 L1 : String)
    (env1 env2 : PrepareEnv) (cenv : CommitEnv)
    (h1 : (n.Prepare fs dst1 "" env1).err = none)
    (hc : ((n.Prepare fs dst1 "" env1).n.Commit fsT L1 dst1 cenv).err = none)
    (h2 : (((n.Prepare fs dst1 "" env1).n.Commit fsT L1 dst1 cenv).n.Prepare
      ((n.Prepare fs dst1 "" env1).n.Commit fsT L1 dst1 cenv).fs dst2 L1 env2).err = none) :
    (∀ q, stat (((n.Prepare fs dst1 "" env1).n.Commit fsT L1 dst1 cenv).n.Prepare
        ((n.Prepare fs dst1 "" env1).n.Commit fsT L1 dst1 cenv).fs dst2 L1 env2).fs
        (pathOf dst2 ++ q) = stat fsT (pathOf dst1 ++ q)) ∧
    (((n.Prepare fs dst1 "" env1).n.Commit fsT L1 dst1 cenv).n.Prepare
      ((n.Prepare fs dst1 "" env1).n.Commit fsT L1 dst1 cenv).fs dst2 L1 env2).n.Parent L1
      = "" := by
  -- the first `Prepare` registered `dst1` with the directory `m1`
  have hreg := Prepare_ok_registers n fs dst1 "" env1 (Or.inl rfl) h1
  have hroot1 := (Prepare_parents n fs dst1 "" env1).2
  have hact : (n.Prepare fs dst1 "" env1).n.active dst1 =
      some { parent := "", metadata := join (pathOf n.root) ("active-" ++ env1.suffix) } := by
    rw [hreg]; exact GoMap.set_same _ _ _
  generalize (n.Prepare fs dst1 "" env1).n = n1 at hc h2 hact hroot1 ⊢
  -- the `Commit`
  obtain ⟨a, ha, hpar, _, hrootc⟩ := Commit_ok_manager n1 fsT L1 dst1 cenv hc
  rw [hact] at ha
  cases ha
  have hdata := Commit_ok_data n1 fsT L1 dst1 cenv _ hact hc
  obtain ⟨hdir, hmove⟩ := Commit_ok_fs n1 fsT L1 dst1 cenv _ hact hc
  dsimp only at hmove hpar
  have hL1 : L1 ≠ "" := by
    intro hL
    subst hL
    have hp : pathOf "" = [] := rfl
    rw [hp] at hmove
    rcases hmove with ⟨he, _⟩ | ⟨_, hu, _⟩
    · simp [join] at he
    · simp [under] at hu
  have hknown : (n1.Commit fsT L1 dst1 cenv).n.parents L1 ≠ none := by
    rw [hpar, GoMap.set_same]; simp
  -- the second `Prepare`
  obtain ⟨hfresh, hfs2⟩ := Prepare_ok_fs_parent _ _ dst2 L1 env2 hL1 hknown h2
  have hpar2 := (Prepare_parents (n1.Commit fsT L1 dst1 cenv).n
    (n1.Commit fsT L1 dst1 cenv).fs dst2 L1 env2).1
  rw [hrootc, hroot1] at hfresh hfs2
  -- `L1/data` is neither the new directory nor above it
  have hkey : under (join (pathOf L1) "data")
      (join (pathOf n.root) ("active-" ++ env2.suffix)) = false := by
    cases hk : under (join (pathOf L1) "data")
        (join (pathOf n.root) ("active-" ++ env2.suffix)) with
    | false => rfl
    | true =>
      exfalso
      rcases under_join_cases hk with heq | hup
      · have h0 := hdata []
        rw [List.append_nil, List.append_nil, heq, hfresh] at h0
        simp [isDir] at hdir
        rw [hdir] at h0
        exact Option.noConfusion h0
      · rcases hmove with ⟨he, _⟩ | ⟨_, hu, _⟩
        · rw [← he, under_iff] at hup
          have := hup.length_le
          simp [join] at this
        · have h3 : under (pathOf L1) (join (pathOf n.root) ("active-" ++ env1.suffix))
              = true :=
            under_trans (under_trans (under_join_self _ _) hup) (under_join_self _ _)
          rw [h3] at hu
          exact Bool.noConfusion hu
  constructor
  · intro q
    have hx0 : under (join (pathOf L1) "data") (join (pathOf L1) "data" ++ q) = true :=
      under_append _ _
    have hne1 : ¬ join (pathOf n.root) ("active-" ++ env2.suffix) =
        join (pathOf L1) "data" ++ q := by
      intro he
      rw [← he, hkey] at hx0
      exact Bool.noConfusion hx0
    have hne2 : ∀ name : String, "data" ≠ name →
        ¬ join (join (pathOf n.root) ("active-" ++ env2.suffix)) name =
          join (pathOf L1) "data" ++ q := by
      intro name hname he
      rw [← he] at hx0
      rcases under_join_cases hx0 with heq | hup
      · exact hname (join_inj heq).2
      · rw [hup] at hkey
        exact Bool.noConfusion hkey
    rw [hfs2, stat_graft, under_append, if_pos rfl, drop_append_self, stat_subtree,
      stat_setNode, if_neg (hne2 "parent" (by decide)),
      stat_setNode, if_neg (hne2 "target" (by decide)),
      stat_setNode, if_neg hne1]
    exact hdata q
  · rw [Naive.Parent, hpar2, hpar, GoMap.set_same]
    rfl

/-- Witness for C3 on the concrete run: the three calls succeed, and `dst2`
ends up holding the file `f` with content `x` that the caller wrote under
`dst1`, which is all it holds apart from its own top directory. -/
theorem round_trip_witness :
    exP1.err = none ∧ exC1.err = none ∧ exP2.err = none ∧
    stat exP2.fs (pathOf "dst2" ++ ["f"]) = some (Node.file "x") ∧
    (∀ q, stat exP2.fs (pathOf "dst2" ++ q) = stat exFsT (pathOf "dst1" ++ q)) ∧
    exP2.n.Parent "L1" = "" :=
  have h := round_trip exN0 exNew.fs exFsT "dst1" "dst2" "L1" (exEnv "1") (exEnv "2")
    exCommitEnv (by decide) (by decide) (by decide)
  ⟨by decide, by decide, by decide, (h.1 ["f"]).trans (by decide), h.1, h.2⟩

/-- C4: when `dst` is active with parent `a.parent` and `Commit(diff, dst)`
succeeds, `Parent(diff)` is that parent and `dst` is no longer active; and a
later successful `Prepare(dst2, diff)` followed by a successful
`Commit(L2, dst2)` gives `Parent(L2) = diff`, whatever the caller did to the
file system in between. -/
theorem Commit_records_parent (n : Naive) (fs : FS) (diff dst : String) (env : CommitEnv)
    (a : activeNaiveSnapshot) (hact : n.active dst = some a)
    (hok : (n.Commit fs diff dst env).err = none) :
    (n.Commit fs diff dst env).n.Parent diff = a.parent ∧
    (n.Commit fs diff dst env).n.active dst = none ∧
    ∀ (fs1 fs2 : FS) (dst2 L2 : String) (penv : PrepareEnv) (cenv : CommitEnv),
      ((n.Commit fs diff dst env).n.Prepare fs1 dst2 diff penv).err = none →
      (((n.Commit fs diff dst env).n.Prepare fs1 dst2 diff penv).n.Commit
          fs2 L2 dst2 cenv).err = none →
      (((n.Commit fs diff dst env).n.Prepare fs1 dst2 diff penv).n.Commit
          fs2 L2 dst2 cenv).n.Parent L2 = diff := by
  obtain ⟨a', ha', hpar, hactive, _⟩ := Commit_ok_manager n fs diff dst env hok
  rw [hact] at ha'
  cases ha'
  refine ⟨?_, ?_, ?_⟩
  · simp [Naive.Parent, hpar, GoMap.set_same]
  · simp [hactive, GoMap.delete_same]
  · intro fs1 fs2 dst2 L2 penv cenv hp hc
    have hknown : (n.Commit fs diff dst env).n.parents diff ≠ none := by
      simp [hpar, GoMap.set_same]
    have hreg := Prepare_ok_registers _ fs1 dst2 diff penv (Or.inr hknown) hp
    obtain ⟨b, hb, hpar2, _, _⟩ := Commit_ok_manager _ fs2 L2 dst2 cenv hc
    rw [hreg, GoMap.set_same] at hb
    cases hb
    simp [Naive.Parent, hpar2, GoMap.set_same]

/-- Witness for C4 on the concrete run: `dst1` is active with parent `""`,
`Commit("L1", "dst1")` succeeds, and the chain ends with `Parent("L2") = "L1"`. -/
theorem Commit_records_parent_witness :
    exC1.n.Parent "L1" = "" ∧ exC1.n.active "dst1" = none ∧ exC2.n.Parent "L2" = "L1" :=
  have h := Commit_records_parent exP1.n exFsT "L1" "dst1" exCommitEnv
    { parent := "", metadata := ["r", "active-1"] } (by decide) (by decide)
  ⟨h.1, h.2.1, h.2.2 exC1.fs exP2.fs "dst2" "L2" (exEnv "2") exCommitEnv
    (by decide) (by decide)⟩

/-- C5: after a successful `Commit(diff, dst)`, a second `Commit(diff2, dst)`
on any file system returns the error "dst is not an active transaction" and
changes neither the manager (active set, parent index) nor the file system. -/
theorem Commit_twice_fails (n : Naive) (fs : FS) (diff dst : String) (env : CommitEnv)
    (hok : (n.Commit fs diff dst env).err = none)
    (fs2 : FS) (diff2 : String) (env2 : CommitEnv) :
    ((n.Commit fs diff dst env).n.Commit fs2 diff2 dst env2).err =
      some (dst ++ " is not an active transaction") ∧
    ((n.Commit fs diff dst env).n.Commit fs2 diff2 dst env2).n = (n.Commit fs diff dst env).n ∧
    ((n.Commit fs diff dst env).n.Commit fs2 diff2 dst env2).fs = fs2 := by
  obtain ⟨a, _, _, hactive, _⟩ := Commit_ok_manager n fs diff dst env hok
  have hnone : (n.Commit fs diff dst env).n.active dst = none := by
    simp [hactive, GoMap.delete_same]
  generalize (n.Commit fs diff dst env).n = m at hnone
  unfold Naive.Commit
  rw [hnone]
  simp [Errorf]

/-- Witness for C5 on the concrete run: `Commit("L1", "dst1")` succeeded, and
`Commit("L9", "dst1")` then fails. -/
theorem Commit_twice_fails_witness :
    exC1.err = none ∧
    (exC1.n.Commit exC1.fs "L9" "dst1" exCommitEnv).err =
      some ("dst1" ++ " is not an active transaction") ∧
    (exC1.n.Commit exC1.fs "L9" "dst1" exCommitEnv).n = exC1.n ∧
    (exC1.n.Commit exC1.fs "L9" "dst1" exCommitEnv).fs = exC1.fs :=
  ⟨by decide,
   Commit_twice_fails exP1.n exFsT "L1" "dst1" exCommitEnv (by decide) exC1.fs "L9" exCommitEnv⟩

/-- C6: when `dst` is active and `Commit(diff, dst)` returns an error (the
copy failed or the rename failed), `dst` is still active with the same parent
and metadata directory, and the active set and the parent index are as they
were. -/
theorem Commit_failure_keeps_transaction (n : Naive) (fs : FS) (diff dst : String)
    (env : CommitEnv) (a : activeNaiveSnapshot) (hact : n.active dst = some a)
    (herr : (n.Commit fs diff dst env).err ≠ none) :
    (n.Commit fs diff dst env).n.active dst = some a ∧
    (n.Commit fs diff dst env).n.active = n.active ∧
    (n.Commit fs diff dst env).n.parents = n.parents := by
  rw [Commit_err_manager n fs diff dst env herr]
  exact ⟨hact, rfl, rfl⟩

/-- Witness for C6 on the concrete run: with `dst2` active, `Commit("L1",
"dst2")` fails at the rename because `L1` already exists, and `dst2` stays
active. -/
theorem Commit_failure_keeps_transaction_witness :
    (exP2.n.Commit exP2.fs "L1" "dst2" exCommitEnv).err =
      some ("failed to rename metadata into diff: " ++ "file exists") ∧
    (exP2.n.Commit exP2.fs "L1" "dst2" exCommitEnv).n.active "dst2" =
      some { parent := "L1", metadata := ["r", "active-2"] } :=
  ⟨by decide,
   (Commit_failure_keeps_transaction exP2.n exP2.fs "L1" "dst2" exCommitEnv
      { parent := "L1", metadata := ["r", "active-2"] } (by decide) (by decide)).1⟩

/-- C7 (as stated, refuted): after `Prepare("r", "")` on the manager with
root `r`, the destination `r` is active and holds the directory `active-1`; a
successful `Rollback("r")` removes it, so the content of `dst` has changed. -/
theorem Rollback_changes_dst_content :
    exPr.n.active "r" = some { parent := "", metadata := ["r", "active-1"] } ∧
    (exPr.n.Rollback exPr.fs "r" none).err = none ∧
    stat exPr.fs (pathOf "r" ++ ["active-1"]) = some Node.dir ∧
    stat (exPr.n.Rollback exPr.fs "r" none).fs (pathOf "r" ++ ["active-1"]) = none := by
  decide

/-- C7 (amended): when `dst` is active with metadata directory `a.metadata`
and `Rollback(dst)` succeeds, `dst` is no longer active, the parent index is
unchanged, nothing is left at or below the metadata directory, every path
outside it is unchanged, and so the content of `dst` is unchanged whenever
`dst` neither contains the metadata directory nor lies inside it. -/
theorem Rollback_ok_effects (n : Naive) (fs : FS) (dst : String)
    (fault : Option (String × (Path → Bool))) (a : activeNaiveSnapshot)
    (hact : n.active dst = some a) (hok : (n.Rollback fs dst fault).err = none) :
    (n.Rollback fs dst fault).n.active dst = none ∧
    (n.Rollback fs dst fault).n.parents = n.parents ∧
    (∀ q, under a.metadata q = true → stat (n.Rollback fs dst fault).fs q = none) ∧
    (∀ q, under a.metadata q = false → stat (n.Rollback fs dst fault).fs q = stat fs q) ∧
    (under a.metadata (pathOf dst) = false → under (pathOf dst) a.metadata = false →
      ∀ q, stat (n.Rollback fs dst fault).fs (pathOf dst ++ q) = stat fs (pathOf dst ++ q)) := by
  revert hok
  unfold Naive.Rollback
  rw [hact]
  dsimp only
  cases fault with
  | some f => obtain ⟨e, keep⟩ := f; simp [RemoveAll]
  | none =>
    intro _
    have hframe : ∀ q, under a.metadata q = false →
        stat (RemoveAll fs a.metadata none).fs q = stat fs q := by
      intro q hq
      simp [RemoveAll, stat_removeTree, hq]
    refine ⟨GoMap.delete_same _ _, rfl, ?_, hframe, ?_⟩
    · intro q hq
      simp [RemoveAll, stat_removeTree, hq]
    · intro h1 h2 q
      exact hframe _ (under_append_false h1 h2 q)

/-- Witness for the amended C7 on the concrete run: `dst1` is active with
metadata `r/active-1`; after `Rollback("dst1")` nothing is left there and the
file the caller wrote under `dst1` is still in place. -/
theorem Rollback_ok_effects_witness :
    (exP1.n.Rollback exFsT "dst1" none).n.active "dst1" = none ∧
    stat (exP1.n.Rollback exFsT "dst1" none).fs ["r", "active-1", "target"] = none ∧
    stat (exP1.n.Rollback exFsT "dst1" none).fs (pathOf "dst1" ++ ["f"]) =
      stat exFsT (pathOf "dst1" ++ ["f"]) :=
  have h := Rollback_ok_effects exP1.n exFsT "dst1" none
    { parent := "", metadata := ["r", "active-1"] } (by decide) (by decide)
  ⟨h.1, h.2.2.1 ["r", "active-1", "target"] (by decide),
   h.2.2.2.2 (by decide) (by decide) ["f"]⟩

/-- C8: when `dst` is not active, `Commit(diff, dst)` and `Rollback(dst)` each
return an error and leave the manager (active set, parent index) and the file
system exactly as they were. -/
theorem inactive_Commit_Rollback_fail (n : Naive) (fs : FS) (diff dst : String)
    (env : CommitEnv) (fault : Option (String × (Path → Bool)))
    (h : n.active dst = none) :
    ((n.Commit fs diff dst env).err ≠ none ∧ (n.Commit fs diff dst env).n = n ∧
      (n.Commit fs diff dst env).fs = fs) ∧
    ((n.Rollback fs dst fault).err ≠ none ∧ (n.Rollback fs dst fault).n = n ∧
      (n.Rollback fs dst fault).fs = fs) := by
  unfold Naive.Commit Naive.Rollback
  rw [h]
  simp [Errorf]

/-- Witness for C8: on the fresh manager nothing is active, so `Commit("L1",
"dst")` and `Rollback("dst")` fail without effect. -/
theorem inactive_Commit_Rollback_fail_witness :
    ((exN0.Commit exNew.fs "L1" "dst" exCommitEnv).err ≠ none ∧
      (exN0.Commit exNew.fs "L1" "dst" exCommitEnv).n = exN0 ∧
      (exN0.Commit exNew.fs "L1" "dst" exCommitEnv).fs = exNew.fs) ∧
    ((exN0.Rollback exNew.fs "dst" none).err ≠ none ∧
      (exN0.Rollback exNew.fs "dst" none).n = exN0 ∧
      (exN0.Rollback exNew.fs "dst" none).fs = exNew.fs) :=
  inactive_Commit_Rollback_fail exN0 exNew.fs "L1" "dst" exCommitEnv none (by decide)

/-- C9 (as stated, refuted): with `dst1` active (metadata `r/active-1`), a
second `Prepare("dst1", "")` returns no error and replaces the entry of `dst1`
by one with metadata `r/active-2`. -/
theorem Prepare_twice_succeeds :
    exP1.n.active "dst1" = some { parent := "", metadata := ["r", "active-1"] } ∧
    (exP1.n.Prepare exP1.fs "dst1" "" (exEnv "2")).err = none ∧
    (exP1.n.Prepare exP1.fs "dst1" "" (exEnv "2")).n.active "dst1" =
      some { parent := "", metadata := ["r", "active-2"] } := by
  decide

/-- `Prepare` does not read the active set: what it returns and what it does
to the file system are the same whatever the active set holds. -/
theorem Prepare_ignores_active (n : Naive) (fs : FS) (dst parent : String)
    (env : PrepareEnv) (act2 : GoMap activeNaiveSnapshot) :
    ({ n with active := act2 }.Prepare fs dst parent env).err =
      (n.Prepare fs dst parent env).err ∧
    ({ n with active := act2 }.Prepare fs dst parent env).mounts =
      (n.Prepare fs dst parent env).mounts ∧
    ({ n with active := act2 }.Prepare fs dst parent env).fs =
      (n.Prepare fs dst parent env).fs := by
  unfold Naive.Prepare
  dsimp only
  split_ifs <;> exact ⟨rfl, rfl, rfl⟩

/-- With the empty parent, `Prepare` succeeds whenever `ioutil.TempDir` and the
write of the target file meet no fault, root is a directory, the name picked
is free and no directory stands in the way of the target file. -/
theorem Prepare_noparent_succeeds (n : Naive) (fs : FS) (dst : String) (env : PrepareEnv)
    (hT : env.tempDir = none) (hW : env.writeTarget = none)
    (hroot : isDir fs (pathOf n.root) = true)
    (hfree : stat fs (join (pathOf n.root) ("active-" ++ env.suffix)) = none)
    (hnd : stat fs (join (join (pathOf n.root) ("active-" ++ env.suffix)) "target")
      ≠ some Node.dir) :
    (n.Prepare fs dst "" env).err = none := by
  have h1 : (TempDir fs (pathOf n.root) "active-" env.suffix env.tempDir).err = none := by
    rw [hT]; exact TempDir_succeeds fs _ _ _ hroot hfree
  have ht := TempDir_ok _ _ _ _ _ h1
  have hnd2 : stat (setNode fs (join (pathOf n.root) ("active-" ++ env.suffix)) Node.dir)
      (join (join (pathOf n.root) ("active-" ++ env.suffix)) "target") ≠ some Node.dir := by
    rw [stat_setNode, if_neg (join_ne_self _ "target").symm]
    exact hnd
  have hpar : isDir (setNode fs (join (pathOf n.root) ("active-" ++ env.suffix)) Node.dir)
      (join (join (pathOf n.root) ("active-" ++ env.suffix)) "target").dropLast = true := by
    rw [dropLast_join]
    simp [isDir, stat_setNode]
  have h2 : (WriteFile (TempDir fs (pathOf n.root) "active-" env.suffix env.tempDir).fs
      (join (TempDir fs (pathOf n.root) "active-" env.suffix env.tempDir).name "target")
      dst env.writeTarget).err = none := by
    rw [ht.2.2.1, ht.2.2.2, hW]
    exact (WriteFile_opened _ _ dst hnd2 hpar).1.1
  unfold Naive.Prepare
  dsimp only
  rw [if_neg (by rw [h1]; simp), if_neg (by rw [h2]; simp), if_neg (by simp)]

/-- C9 (amended): `Prepare` does not consult the active set, so it is never
rejected for `dst` being active.  What `Prepare(dst, parent)` returns and does
on disk is the same whatever the active set holds, in particular the same as
if `dst` were not active; with the empty parent it succeeds whenever
`ioutil.TempDir` and the write of the target file meet no fault, root is a
directory and the name picked is free.  When `dst` is already active, a
`Prepare(dst, parent)` that returns an error leaves the manager, and so the
entry of `dst`, unchanged; one that returns no error, for a parent that is
empty or committed, replaces the entry of `dst` by the new parent and the new
transaction directory and leaves every other entry alone. -/
theorem Prepare_on_active_dst (n : Naive) (fs : FS) (dst parent : String) (env : PrepareEnv)
    (a : activeNaiveSnapshot) (hact : n.active dst = some a) :
    ((n.Prepare fs dst parent env).err ≠ none →
      (n.Prepare fs dst parent env).n = n ∧
      (n.Prepare fs dst parent env).n.active dst = some a) ∧
    ((n.Prepare fs dst parent env).err = none → (parent = "" ∨ n.parents parent ≠ none) →
      (n.Prepare fs dst parent env).n.active dst =
        some { parent := parent,
               metadata := join (pathOf n.root) ("active-" ++ env.suffix) } ∧
      ∀ d, d ≠ dst → (n.Prepare fs dst parent env).n.active d = n.active d) ∧
    (∀ act2 : GoMap activeNaiveSnapshot,
      ({ n with active := act2 }.Prepare fs dst parent env).err =
        (n.Prepare fs dst parent env).err ∧
      ({ n with active := act2 }.Prepare fs dst parent env).mounts =
        (n.Prepare fs dst parent env).mounts ∧
      ({ n with active := act2 }.Prepare fs dst parent env).fs =
        (n.Prepare fs dst parent env).fs) ∧
    (parent = "" → env.tempDir = none → env.writeTarget = none →
      isDir fs (pathOf n.root) = true →
      stat fs (join (pathOf n.root) ("active-" ++ env.suffix)) = none →
      stat fs (join (join (pathOf n.root) ("active-" ++ env.suffix)) "target")
        ≠ some Node.dir →
      (n.Prepare fs dst parent env).err = none ∧
      (n.Prepare fs dst parent env).n.active dst =
        some { parent := "",
               metadata := join (pathOf n.root) ("active-" ++ env.suffix) }) := by
  refine ⟨?_, ?_, Prepare_ignores_active n fs dst parent env, ?_⟩
  · intro herr
    rw [Prepare_err_manager n fs dst parent env herr]
    exact ⟨rfl, hact⟩
  · intro hok hp
    rw [Prepare_ok_registers n fs dst parent env hp hok]
    refine ⟨GoMap.set_same _ _ _, ?_⟩
    intro d hd
    simp [GoMap.set, hd]
  · intro hpe hT hW hroot hfree hnd
    subst hpe
    have hok := Prepare_noparent_succeeds n fs dst env hT hW hroot hfree hnd
    refine ⟨hok, ?_⟩
    rw [Prepare_ok_registers n fs dst "" env (Or.inl rfl) hok]
    exact GoMap.set_same _ _ _

/-- Witness for the amended C9 on the concrete run: `dst1` is active, and the
second `Prepare("dst1", "")` is accepted and replaces its entry. -/
theorem Prepare_on_active_dst_witness :
    (exP1.n.Prepare exP1.fs "dst1" "" (exEnv "2")).err = none ∧
    (exP1.n.Prepare exP1.fs "dst1" "" (exEnv "2")).n.active "dst1" =
      some { parent := "", metadata := join (pathOf exP1.n.root) ("active-" ++ "2") } :=
  (Prepare_on_active_dst exP1.n exP1.fs "dst1" "" (exEnv "2")
    { parent := "", metadata := ["r", "active-1"] } (by decide)).2.2.2 rfl rfl rfl
    (by decide) (by decide) (by decide)

/-- C10: in every state reached from `NewNaive` by any sequence of `Prepare`,
`Commit`, `Rollback` and `Parent` calls (and changes of the file system from
outside), a diff is a key of the parent index only if the log holds an earlier
`Commit` for it that returned success; and every call other than a successful
`Commit` leaves the parent index unchanged. -/
theorem parents_only_after_Commit (fs0 : FS) (root : String) (fault : Option String)
    (n : Naive) (hnew : (NewNaive fs0 root fault).n = some n) (calls : List Call)
    (diff : String) :
    ((run { n := n, fs := (NewNaive fs0 root fault).fs } calls).1.n.parents diff ≠ none →
      ∃ dst env, (Call.commit diff dst env, none) ∈
        (run { n := n, fs := (NewNaive fs0 root fault).fs } calls).2) ∧
    ∀ (w : World) (c : Call),
      (¬ ∃ d dst env, c = Call.commit d dst env ∧ (step w c).2 = none) →
      (step w c).1.n.parents = w.n.parents := by
  refine ⟨?_, step_parents⟩
  intro h
  rcases run_parents_key calls _ diff h with h0 | h1
  · exfalso
    apply h0
    revert hnew
    unfold NewNaive
    dsimp only
    split_ifs
    · simp
    · intro hn
      cases hn
      rfl
  · exact h1

/-- Witness for C10 on the concrete run `Prepare("dst1", "")`, caller writes,
`Commit("L1", "dst1")`: `L1` is a key at the end and the log holds its
successful `Commit`. -/
theorem parents_only_after_Commit_witness :
    (run { n := exN0, fs := (NewNaive exFs0 "r" none).fs }
        [Call.prepare "dst1" "" (exEnv "1"), Call.mutate exFsT,
         Call.commit "L1" "dst1" exCommitEnv]).1.n.parents "L1" ≠ none ∧
    ∃ dst env, (Call.commit "L1" dst env, none) ∈
      (run { n := exN0, fs := (NewNaive exFs0 "r" none).fs }
        [Call.prepare "dst1" "" (exEnv "1"), Call.mutate exFsT,
         Call.commit "L1" "dst1" exCommitEnv]).2 :=
  ⟨by decide,
   (parents_only_after_Commit exFs0 "r" none exN0 rfl
      [Call.prepare "dst1" "" (exEnv "1"), Call.mutate exFsT,
       Call.commit "L1" "dst1" exCommitEnv] "L1").1 (by decide)⟩

/-! ## Frames of the calls into the operating system -/

theorem TempDir_frame (fs : FS) (dir : Path) (pfx suffix : String) (fault : Option String)
    (q : Path) (hq : join dir (pfx ++ suffix) ≠ q) :
    stat (TempDir fs dir pfx suffix fault).fs q = stat fs q := by
  cases h : (TempDir fs dir pfx suffix fault).err with
  | some e => rw [TempDir_err fs dir pfx suffix fault (by rw [h]; simp)]
  | none => rw [(TempDir_ok fs dir pfx suffix fault h).2.2.2, stat_setNode, if_neg hq]

theorem CopyDir_frame (fs : FS) (dst src : Path) (fault : Option (String × Tree))
    (q : Path) (hq : under dst q = false) :
    stat (CopyDir fs dst src fault).fs q = stat fs q := by
  unfold CopyDir
  split_ifs
  · rfl
  · rfl
  · cases fault with
    | some f => obtain ⟨e, junk⟩ := f; simp [stat_graft, hq]
    | none => simp [stat_graft, hq]

theorem Rename_err (fs : FS) (old new : Path) (fault : Option String)
    (h : (Rename fs old new fault).err ≠ none) : (Rename fs old new fault).fs = fs := by
  revert h
  unfold Rename
  cases fault with
  | some e => simp
  | none =>
    dsimp only
    split_ifs <;> simp

theorem Rename_frame (fs : FS) (old new : Path) (fault : Option String)
    (q : Path) (h1 : under old q = false) (h2 : under new q = false) :
    stat (Rename fs old new fault).fs q = stat fs q := by
  cases h : (Rename fs old new fault).err with
  | some e => rw [Rename_err fs old new fault (by rw [h]; simp)]
  | none =>
    rcases Rename_ok fs old new fault h with ⟨_, hfs⟩ | ⟨_, _, hfs⟩
    · rw [hfs]
    · rw [hfs, stat_moved, h1, h2]; simp

theorem RemoveAll_frame (fs : FS) (p : Path) (fault : Option (String × (Path → Bool)))
    (q : Path) (hq : under p q = false) :
    stat (RemoveAll fs p fault).fs q = stat fs q := by
  unfold RemoveAll
  cases fault with
  | some f =>
    obtain ⟨e, keep⟩ := f
    dsimp only
    rw [stat_filter (fun x => !(under p x && !keep x)) fs q]
    simp [hq]
  | none => simp [stat_removeTree, hq]

/-- `Rollback` on an active `dst`: what it returns and does, whatever the
outcome of the deletion. -/
theorem Rollback_active (n : Naive) (fs : FS) (dst : String)
    (fault : Option (String × (Path → Bool))) (a : activeNaiveSnapshot)
    (hact : n.active dst = some a) :
    (n.Rollback fs dst fault).err = (RemoveAll fs a.metadata fault).err ∧
    (n.Rollback fs dst fault).n.active = n.active.delete dst ∧
    (n.Rollback fs dst fault).n.parents = n.parents ∧
    (n.Rollback fs dst fault).n.root = n.root ∧
    (n.Rollback fs dst fault).fs = (RemoveAll fs a.metadata fault).fs := by
  unfold Naive.Rollback
  rw [hact]
  exact ⟨rfl, rfl, rfl, rfl, rfl⟩

/-- C11 (as stated, refuted): with `dst1` active, a `Rollback("dst1")` whose
deletion fails returns the error, and `dst1` is no longer in the active set
although its metadata directory is still on disk. -/
theorem Rollback_failure_drops_transaction :
    exP1.n.active "dst1" = some { parent := "", metadata := ["r", "active-1"] } ∧
    (exP1.n.Rollback exFsT "dst1" exRemoveFails).err = some "permission denied" ∧
    (exP1.n.Rollback exFsT "dst1" exRemoveFails).n.active "dst1" = none ∧
    stat (exP1.n.Rollback exFsT "dst1" exRemoveFails).fs ["r", "active-1"] =
      some Node.dir := by
  decide

/-- C11 (amended): when `dst` is active and the deletion of its metadata
directory fails with error `e`, `Rollback(dst)` returns `e`, but `dst` has
already been removed from the active set; the parent index is unchanged and
no path outside the metadata directory is touched. -/
theorem Rollback_failure_effects (n : Naive) (fs : FS) (dst : String) (e : String)
    (keep : Path → Bool) (a : activeNaiveSnapshot) (hact : n.active dst = some a) :
    (n.Rollback fs dst (some (e, keep))).err = some e ∧
    (n.Rollback fs dst (some (e, keep))).n.active dst = none ∧
    (∀ d, d ≠ dst → (n.Rollback fs dst (some (e, keep))).n.active d = n.active d) ∧
    (n.Rollback fs dst (some (e, keep))).n.parents = n.parents ∧
    ∀ q, under a.metadata q = false →
      stat (n.Rollback fs dst (some (e, keep))).fs q = stat fs q := by
  obtain ⟨herr, hactive, hpar, _, hfs⟩ := Rollback_active n fs dst (some (e, keep)) a hact
  refine ⟨by rw [herr]; rfl, by rw [hactive]; exact GoMap.delete_same _ _, ?_, hpar, ?_⟩
  · intro d hd
    rw [hactive]
    simp [GoMap.delete, hd]
  · intro q hq
    rw [hfs]
    exact RemoveAll_frame fs a.metadata _ q hq

/-- Witness for the amended C11 on the concrete run. -/
theorem Rollback_failure_effects_witness :
    (exP1.n.Rollback exFsT "dst1" (some ("permission denied", fun _ => true))).err =
      some "permission denied" ∧
    (exP1.n.Rollback exFsT "dst1" (some ("permission denied", fun _ => true))).n.active
      "dst1" = none :=
  have h := Rollback_failure_effects exP1.n exFsT "dst1" "permission denied" (fun _ => true)
    { parent := "", metadata := ["r", "active-1"] } (by decide)
  ⟨h.1, h.2.1⟩

/-- What a `Prepare` with the empty parent that returns no error did to the
file system. -/
theorem Prepare_ok_fs_noparent (n : Naive) (fs : FS) (dst : String) (env : PrepareEnv)
    (h : (n.Prepare fs dst "" env).err = none) :
    stat fs (join (pathOf n.root) ("active-" ++ env.suffix)) = none ∧
    (n.Prepare fs dst "" env).fs =
      setNode (setNode fs (join (pathOf n.root) ("active-" ++ env.suffix)) Node.dir)
        (join (join (pathOf n.root) ("active-" ++ env.suffix)) "target") (Node.file dst) := by
  revert h
  unfold Naive.Prepare
  dsimp only
  split_ifs with h1 h2 h3
  · intro h; rw [Wrap_eq_none] at h; exact absurd h (ne_none_of_isSome h1)
  · intro h; rw [Wrap_eq_none] at h; exact absurd h (ne_none_of_isSome h2)
  · exact absurd rfl h3
  · exact absurd rfl h3
  · exact absurd rfl h3
  · exact absurd rfl h3
  · intro _
    have ht := TempDir_ok _ _ _ _ _ (eq_none_of_not_isSome h1)
    refine ⟨ht.2.1, ?_⟩
    rw [WriteFile_ok _ _ _ _ (eq_none_of_not_isSome h2), ht.2.2.2, ht.2.2.1]

/-- Whatever its outcome, `Prepare(dst, parent)` changes no path outside the
transaction directory it creates and outside `dst`. -/
theorem Prepare_frame (n : Naive) (fs : FS) (dst parent : String) (env : PrepareEnv)
    (q : Path) (hm : under (join (pathOf n.root) ("active-" ++ env.suffix)) q = false)
    (hd : under (pathOf dst) q = false) :
    stat (n.Prepare fs dst parent env).fs q = stat fs q := by
  have hT := TempDir_frame fs (pathOf n.root) "active-" env.suffix env.tempDir q (under_ne hm)
  unfold Naive.Prepare
  dsimp only
  by_cases h1 : (TempDir fs (pathOf n.root) "active-" env.suffix env.tempDir).err.isSome = true
  · rw [if_pos h1]
    exact hT
  · rw [if_neg h1]
    have ht := TempDir_ok _ _ _ _ _ (eq_none_of_not_isSome h1)
    rw [ht.2.2.1]
    have hW : ∀ (name data : String) (fault : Option (String × Option String)) (g : FS),
        stat (WriteFile g (join (join (pathOf n.root) ("active-" ++ env.suffix)) name)
          data fault).fs q = stat g q :=
      fun name data fault g => WriteFile_frame g _ data fault q (under_join_false name hm)
    split_ifs
    · exact (hW _ _ _ _).trans hT
    · exact (hW _ _ _ _).trans hT
    · exact ((hW _ _ _ _).trans (hW _ _ _ _)).trans hT
    · exact (((CopyDir_frame _ _ _ _ q hd).trans (hW _ _ _ _)).trans (hW _ _ _ _)).trans hT
    · exact (((CopyDir_frame _ _ _ _ q hd).trans (hW _ _ _ _)).trans (hW _ _ _ _)).trans hT
    · exact (hW _ _ _ _).trans hT

/-- Once `ioutil.TempDir` has succeeded, the transaction directory is on disk
when `Prepare` returns, whatever `Prepare` returns, unless `dst` contains it. -/
theorem Prepare_dir_kept (n : Naive) (fs : FS) (dst parent : String) (env : PrepareEnv)
    (hT : (TempDir fs (pathOf n.root) "active-" env.suffix env.tempDir).err = none)
    (hd : under (pathOf dst) (join (pathOf n.root) ("active-" ++ env.suffix)) = false) :
    stat (n.Prepare fs dst parent env).fs (join (pathOf n.root) ("active-" ++ env.suffix)) =
      some Node.dir := by
  have ht := TempDir_ok _ _ _ _ _ hT
  have h0 : stat (TempDir fs (pathOf n.root) "active-" env.suffix env.tempDir).fs
      (join (pathOf n.root) ("active-" ++ env.suffix)) = some Node.dir := by
    rw [ht.2.2.2, stat_setNode, if_pos rfl]
  have hW : ∀ (name data : String) (fault : Option (String × Option String)) (g : FS),
      stat (WriteFile g (join (join (pathOf n.root) ("active-" ++ env.suffix)) name)
        data fault).fs (join (pathOf n.root) ("active-" ++ env.suffix)) =
      stat g (join (pathOf n.root) ("active-" ++ env.suffix)) :=
    fun name data fault g => WriteFile_frame g _ data fault _ (join_ne_self _ name)
  unfold Naive.Prepare
  dsimp only
  rw [ht.2.2.1]
  split_ifs
  · exact h0
  · exact (hW _ _ _ _).trans h0
  · exact (hW _ _ _ _).trans h0
  · exact ((hW _ _ _ _).trans (hW _ _ _ _)).trans h0
  · exact (((CopyDir_frame _ _ _ _ _ hd).trans (hW _ _ _ _)).trans (hW _ _ _ _)).trans h0
  · exact (((CopyDir_frame _ _ _ _ _ hd).trans (hW _ _ _ _)).trans (hW _ _ _ _)).trans h0
  · exact (hW _ _ _ _).trans h0

/-- C12 (as stated, refuted): on the fresh manager, a `Prepare("dst", "")`
whose write of the target file fails returns that error, and the transaction
directory `r/active-1`, which did not exist before, is still on disk. -/
theorem Prepare_failure_leaves_dir :
    stat exNew.fs ["r", "active-1"] = none ∧
    (exN0.Prepare exNew.fs "dst" "" exEnvWriteFails).err =
      some ("failed to write target to disk: " ++ "no space left on device") ∧
    stat (exN0.Prepare exNew.fs "dst" "" exEnvWriteFails).fs ["r", "active-1"] =
      some Node.dir := by
  decide

/-- C12 (amended): `Prepare` has no cleanup.  Whenever `Prepare(dst, parent)`
returns an error after `ioutil.TempDir` created the transaction directory,
the manager (active set, parent index) is unchanged and the transaction
directory is still on disk when `Prepare` returns (unless `dst` contains it,
where a failed copy may have overwritten it). -/
theorem Prepare_error_effects (n : Naive) (fs : FS) (dst parent : String) (env : PrepareEnv)
    (hT : (TempDir fs (pathOf n.root) "active-" env.suffix env.tempDir).err = none)
    (herr : (n.Prepare fs dst parent env).err ≠ none) :
    (n.Prepare fs dst parent env).n = n ∧
    (under (pathOf dst) (join (pathOf n.root) ("active-" ++ env.suffix)) = false →
      stat (n.Prepare fs dst parent env).fs
        (join (pathOf n.root) ("active-" ++ env.suffix)) = some Node.dir) :=
  ⟨Prepare_err_manager n fs dst parent env herr, Prepare_dir_kept n fs dst parent env hT⟩

/-- Witness for the amended C12: the failed write of the target file on the
fresh manager. -/
theorem Prepare_error_effects_witness :
    (exN0.Prepare exNew.fs "dst" "" exEnvWriteFails).n = exN0 ∧
    stat (exN0.Prepare exNew.fs "dst" "" exEnvWriteFails).fs
      (join (pathOf exN0.root) ("active-" ++ exEnvWriteFails.suffix)) = some Node.dir :=
  have h := Prepare_error_effects exN0 exNew.fs "dst" "" exEnvWriteFails
    (by decide) (by decide)
  ⟨h.1, h.2 (by decide)⟩

/-- C13 (as stated, refuted): `Prepare("r", "")` on the manager with root `r`
succeeds with the empty parent, and the destination `r` is modified: it now
holds the directory `active-1`. -/
theorem Prepare_modifies_dst :
    exPr.err = none ∧
    stat exNew.fs (pathOf "r" ++ ["active-1"]) = none ∧
    stat exPr.fs (pathOf "r" ++ ["active-1"]) = some Node.dir := by
  decide

/-- C13 (amended): for every `Prepare(dst, parent)` that returns no error,
with `parent` empty or committed: the returned mounts are nil; `dst` is
registered with exactly `parent` and the directory `m = root/active-suffix`,
which did not exist before.  With the empty parent the only changes on disk
are the creation of `m` and of `m/target` holding `dst`, so no path outside
`m` changes.  With a non-empty parent `m`, `m/target` and `m/parent` (holding
`parent`) are created and then the tree at `dst` becomes a copy of
`parent/data`.  When `dst` neither contains `m` nor lies inside it, `m` is a
directory, `m/target` holds `dst`, and `m/parent` holds `parent` when `parent`
is non-empty and is not created when it is empty. -/
theorem Prepare_ok_effects (n : Naive) (fs : FS) (dst parent : String) (env : PrepareEnv)
    (hp : parent = "" ∨ n.parents parent ≠ none)
    (hok : (n.Prepare fs dst parent env).err = none) :
    (n.Prepare fs dst parent env).mounts = [] ∧
    (n.Prepare fs dst parent env).n.active dst =
      some { parent := parent,
             metadata := join (pathOf n.root) ("active-" ++ env.suffix) } ∧
    stat fs (join (pathOf n.root) ("active-" ++ env.suffix)) = none ∧
    (parent = "" →
      (n.Prepare fs dst parent env).fs =
        setNode (setNode fs (join (pathOf n.root) ("active-" ++ env.suffix)) Node.dir)
          (join (join (pathOf n.root) ("active-" ++ env.suffix)) "target") (Node.file dst) ∧
      ∀ q, under (join (pathOf n.root) ("active-" ++ env.suffix)) q = false →
        stat (n.Prepare fs dst parent env).fs q = stat fs q) ∧
    (parent ≠ "" →
      ∀ q, stat (n.Prepare fs dst parent env).fs (pathOf dst ++ q) =
        stat
          (setNode (setNode (setNode fs (join (pathOf n.root) ("active-" ++ env.suffix))
            Node.dir)
            (join (join (pathOf n.root) ("active-" ++ env.suffix)) "target") (Node.file dst))
            (join (join (pathOf n.root) ("active-" ++ env.suffix)) "parent")
            (Node.file parent))
          (join (pathOf parent) "data" ++ q)) ∧
    (under (pathOf dst) (join (pathOf n.root) ("active-" ++ env.suffix)) = false →
     under (join (pathOf n.root) ("active-" ++ env.suffix)) (pathOf dst) = false →
      stat (n.Prepare fs dst parent env).fs
        (join (pathOf n.root) ("active-" ++ env.suffix)) = some Node.dir ∧
      stat (n.Prepare fs dst parent env).fs
        (join (join (pathOf n.root) ("active-" ++ env.suffix)) "target") =
          some (Node.file dst) ∧
      stat (n.Prepare fs dst parent env).fs
        (join (join (pathOf n.root) ("active-" ++ env.suffix)) "parent") =
          if parent = "" then
            stat fs (join (join (pathOf n.root) ("active-" ++ env.suffix)) "parent")
          else some (Node.file parent)) := by
  have hreg := Prepare_ok_registers n fs dst parent env hp hok
  refine ⟨?_, by rw [hreg]; exact GoMap.set_same _ _ _, ?_, ?_, ?_, ?_⟩
  · unfold Naive.Prepare
    dsimp only
    split_ifs <;> rfl
  · by_cases hpe : parent = ""
    · subst hpe; exact (Prepare_ok_fs_noparent n fs dst env hok).1
    · rcases hp with hp | hp
      · exact absurd hp hpe
      · exact (Prepare_ok_fs_parent n fs dst parent env hpe hp hok).1
  · intro hpe
    subst hpe
    have hfs := (Prepare_ok_fs_noparent n fs dst env hok).2
    refine ⟨hfs, ?_⟩
    intro q hq
    rw [hfs, stat_setNode, stat_setNode, if_neg (under_join_false "target" hq),
      if_neg (under_ne hq)]
  · intro hpe q
    rcases hp with hp | hp
    · exact absurd hp hpe
    · rw [(Prepare_ok_fs_parent n fs dst parent env hpe hp hok).2, stat_graft,
        under_append, if_pos rfl, drop_append_self, stat_subtree]
  · intro hd hmd
    have hdq : ∀ name : String, under (pathOf dst)
        (join (join (pathOf n.root) ("active-" ++ env.suffix)) name) = false := by
      intro name
      exact under_append_false hd hmd [name]
    by_cases hpe : parent = ""
    · subst hpe
      rw [(Prepare_ok_fs_noparent n fs dst env hok).2]
      refine ⟨?_, ?_, ?_⟩
      · rw [stat_setNode, stat_setNode, if_neg (join_ne_self _ _), if_pos rfl]
      · rw [stat_setNode, if_pos rfl]
      · have h1 : join (join (pathOf n.root) ("active-" ++ env.suffix)) "target" ≠
            join (join (pathOf n.root) ("active-" ++ env.suffix)) "parent" :=
          fun h => absurd (join_inj h).2 (by decide)
        rw [stat_setNode, stat_setNode, if_neg h1, if_neg (join_ne_self _ _).symm,
          if_pos rfl]
    · rcases hp with hp | hp
      · exact absurd hp hpe
      · rw [(Prepare_ok_fs_parent n fs dst parent env hpe hp hok).2]
        have h1 : join (join (pathOf n.root) ("active-" ++ env.suffix)) "parent" ≠
            join (join (pathOf n.root) ("active-" ++ env.suffix)) "target" :=
          fun h => absurd (join_inj h).2 (by decide)
        refine ⟨?_, ?_, ?_⟩
        · rw [stat_graft, hd]
          simp only [Bool.false_eq_true, if_false]
          rw [stat_setNode, stat_setNode, stat_setNode, if_neg (join_ne_self _ _),
            if_neg (join_ne_self _ _), if_pos rfl]
        · rw [stat_graft, hdq "target"]
          simp only [Bool.false_eq_true, if_false]
          rw [stat_setNode, stat_setNode, if_neg h1, if_pos rfl]
        · rw [stat_graft, hdq "parent"]
          simp only [Bool.false_eq_true, if_false]
          rw [stat_setNode, if_pos rfl, if_neg hpe]

/-- Witness for the amended C13 on the concrete run: `Prepare("dst2", "L1")`
with the committed parent `L1`. -/
theorem Prepare_ok_effects_witness :
    exP2.mounts = [] ∧
    exP2.n.active "dst2" =
      some { parent := "L1", metadata := join (pathOf exC1.n.root) ("active-" ++ "2") } ∧
    stat exP2.fs (join (join (pathOf exC1.n.root) ("active-" ++ "2")) "target") =
      some (Node.file "dst2") :=
  have h := Prepare_ok_effects exC1.n exC1.fs "dst2" "L1" (exEnv "2")
    (Or.inr (by decide)) (by decide)
  ⟨h.1, h.2.1, (h.2.2.2.2.2 (by decide) (by decide)).2.1⟩

/-- C14: `Parent(diff)` is the value recorded under `diff` in the parent index
when `diff` is a key, and `""` when `diff` is not a key or is recorded with the
empty parent (a base layer); the call returns no error and leaves the manager
and the file system as they were. -/
theorem Parent_pure_lookup (w : World) (diff : String) :
    (∀ p, w.n.parents diff = some p → w.n.Parent diff = p) ∧
    (w.n.parents diff = none → w.n.Parent diff = "") ∧
    (w.n.parents diff = some "" → w.n.Parent diff = "") ∧
    (step w (Call.parent diff)).2 = none ∧
    (step w (Call.parent diff)).1 = w := by
  refine ⟨?_, ?_, ?_, rfl, rfl⟩
  · intro p hp
    simp [Naive.Parent, hp]
  · intro hp
    simp [Naive.Parent, hp]
  · intro hp
    simp [Naive.Parent, hp]

/-- Witness for C14 at the end of the concrete run: `L2` has parent `L1`,
`L1` is a base layer, and `zz` is unknown. -/
theorem Parent_pure_lookup_witness :
    exC2.n.Parent "L2" = "L1" ∧ exC2.n.Parent "L1" = "" ∧ exC2.n.Parent "zz" = "" :=
  ⟨(Parent_pure_lookup { n := exC2.n, fs := exC2.fs } "L2").1 "L1" (by decide),
   (Parent_pure_lookup { n := exC2.n, fs := exC2.fs } "L1").2.2.1 (by decide),
   (Parent_pure_lookup { n := exC2.n, fs := exC2.fs } "zz").2.1 (by decide)⟩

/-! ## Parent closure -/

/-- What `Prepare` can do to the manager: nothing, or register `dst` with a
parent that is empty or committed. -/
theorem Prepare_manager_cases (n : Naive) (fs : FS) (dst parent : String)
    (env : PrepareEnv) :
    (n.Prepare fs dst parent env).n = n ∨
    ((parent = "" ∨ n.parents parent ≠ none) ∧
      (n.Prepare fs dst parent env).err = none ∧
      (n.Prepare fs dst parent env).n.active =
        n.active.set dst
          { parent := parent, metadata := join (pathOf n.root) ("active-" ++ env.suffix) } ∧
      (n.Prepare fs dst parent env).n.parents = n.parents ∧
      (n.Prepare fs dst parent env).n.root = n.root) := by
  by_cases hp : parent = "" ∨ n.parents parent ≠ none
  · by_cases hok : (n.Prepare fs dst parent env).err = none
    · exact Or.inr ⟨hp, hok, Prepare_ok_registers n fs dst parent env hp hok,
        (Prepare_parents n fs dst parent env).1, (Prepare_parents n fs dst parent env).2⟩
    · exact Or.inl (Prepare_err_manager n fs dst parent env hok)
  · left
    have h1 : parent ≠ "" := fun h => hp (Or.inl h)
    have h2 : n.parents parent = none := by
      cases h : n.parents parent with
      | none => rfl
      | some x => exact absurd (Or.inr (by rw [h]; simp)) hp
    unfold Naive.Prepare
    dsimp only
    split_ifs with h3 h4 h5
    · rfl
    · rfl
    · rfl
    all_goals exact absurd (by rw [h2]; rfl) h5

/-- One call keeps the parent closure: parents of active transactions and
values of the parent index are empty or keys of the parent index. -/
theorem step_closed (w : World) (c : Call)
    (h1 : ∀ dst a, w.n.active dst = some a → a.parent = "" ∨ w.n.parents a.parent ≠ none)
    (h2 : ∀ d p, w.n.parents d = some p → p = "" ∨ w.n.parents p ≠ none) :
    (∀ dst a, (step w c).1.n.active dst = some a →
      a.parent = "" ∨ (step w c).1.n.parents a.parent ≠ none) ∧
    (∀ d p, (step w c).1.n.parents d = some p →
      p = "" ∨ (step w c).1.n.parents p ≠ none) := by
  cases c with
  | prepare dst parent env =>
    show (∀ d a, (w.n.Prepare w.fs dst parent env).n.active d = some a →
        a.parent = "" ∨ (w.n.Prepare w.fs dst parent env).n.parents a.parent ≠ none) ∧
      (∀ d p, (w.n.Prepare w.fs dst parent env).n.parents d = some p →
        p = "" ∨ (w.n.Prepare w.fs dst parent env).n.parents p ≠ none)
    rcases Prepare_manager_cases w.n w.fs dst parent env with hn | ⟨hp, _, hact, hpar, _⟩
    · rw [hn]; exact ⟨h1, h2⟩
    · rw [hact, hpar]
      refine ⟨?_, h2⟩
      intro d a ha
      by_cases hd : d = dst
      · subst hd
        rw [GoMap.set_same] at ha
        cases ha
        exact hp
      · simp only [GoMap.set, if_neg hd] at ha
        exact h1 d a ha
  | commit diff dst env =>
    show (∀ d a, (w.n.Commit w.fs diff dst env).n.active d = some a →
        a.parent = "" ∨ (w.n.Commit w.fs diff dst env).n.parents a.parent ≠ none) ∧
      (∀ d p, (w.n.Commit w.fs diff dst env).n.parents d = some p →
        p = "" ∨ (w.n.Commit w.fs diff dst env).n.parents p ≠ none)
    by_cases hok : (w.n.Commit w.fs diff dst env).err = none
    · obtain ⟨a0, ha0, hpar, hact, _⟩ := Commit_ok_manager w.n w.fs diff dst env hok
      rw [hpar, hact]
      have hkeep : ∀ x, w.n.parents x ≠ none → (w.n.parents.set diff a0.parent) x ≠ none := by
        intro x hx
        unfold GoMap.set
        split_ifs
        · simp
        · exact hx
      constructor
      · intro d a ha
        have ha2 : w.n.active d = some a := by
          unfold GoMap.delete at ha
          split_ifs at ha
          exact ha
        exact (h1 d a ha2).imp id (hkeep _)
      · intro d p hp
        by_cases hd : d = diff
        · subst hd
          rw [GoMap.set_same] at hp
          cases hp
          exact (h1 dst a0 ha0).imp id (hkeep _)
        · simp only [GoMap.set, if_neg hd] at hp
          exact (h2 d p hp).imp id (hkeep _)
    · rw [Commit_err_manager w.n w.fs diff dst env hok]
      exact ⟨h1, h2⟩
  | rollback dst fault =>
    show (∀ d a, (w.n.Rollback w.fs dst fault).n.active d = some a →
        a.parent = "" ∨ (w.n.Rollback w.fs dst fault).n.parents a.parent ≠ none) ∧
      (∀ d p, (w.n.Rollback w.fs dst fault).n.parents d = some p →
        p = "" ∨ (w.n.Rollback w.fs dst fault).n.parents p ≠ none)
    cases hact : w.n.active dst with
    | none =>
      have : (w.n.Rollback w.fs dst fault).n = w.n := by
        unfold Naive.Rollback; rw [hact]
      rw [this]; exact ⟨h1, h2⟩
    | some a0 =>
      obtain ⟨_, hactive, hpar, _, _⟩ := Rollback_active w.n w.fs dst fault a0 hact
      rw [hactive, hpar]
      refine ⟨?_, h2⟩
      intro d a ha
      have ha2 : w.n.active d = some a := by
        unfold GoMap.delete at ha
        split_ifs at ha
        exact ha
      exact h1 d a ha2
  | parent diff => exact ⟨h1, h2⟩
  | mutate fs => exact ⟨h1, h2⟩

/-- A run keeps the parent closure. -/
theorem run_closed (calls : List Call) (w : World)
    (h1 : ∀ dst a, w.n.active dst = some a → a.parent = "" ∨ w.n.parents a.parent ≠ none)
    (h2 : ∀ d p, w.n.parents d = some p → p = "" ∨ w.n.parents p ≠ none) :
    (∀ dst a, (run w calls).1.n.active dst = some a →
      a.parent = "" ∨ (run w calls).1.n.parents a.parent ≠ none) ∧
    (∀ d p, (run w calls).1.n.parents d = some p →
      p = "" ∨ (run w calls).1.n.parents p ≠ none) := by
  induction calls generalizing w with
  | nil => exact ⟨h1, h2⟩
  | cons c cs ih =>
    obtain ⟨h3, h4⟩ := step_closed w c h1 h2
    exact ih (step w c).1 h3 h4

/-- The manager `NewNaive` returns has empty maps. -/
theorem NewNaive_empty (fs0 : FS) (root : String) (fault : Option String) (n : Naive)
    (hnew : (NewNaive fs0 root fault).n = some n) :
    n.active = GoMap.empty ∧ n.parents = GoMap.empty ∧ n.root = root := by
  revert hnew
  unfold NewNaive
  dsimp only
  split_ifs
  · simp
  · intro hn
    cases hn
    exact ⟨rfl, rfl, rfl⟩

/-- C17: in every state reached from `NewNaive` by any sequence of `Prepare`,
`Commit`, `Rollback` and `Parent` calls (and changes of the file system from
outside), every non-empty parent recorded for an active transaction and every
non-empty value of the parent index is a key of the parent index; so a
non-empty result of `Parent` names a diff for which the log holds a
successful `Commit`. -/
theorem parent_closure (fs0 : FS) (root : String) (fault : Option String) (n : Naive)
    (hnew : (NewNaive fs0 root fault).n = some n) (calls : List Call) :
    (∀ dst a, (run { n := n, fs := (NewNaive fs0 root fault).fs } calls).1.n.active dst
        = some a → a.parent ≠ "" →
      (run { n := n, fs := (NewNaive fs0 root fault).fs } calls).1.n.parents a.parent
        ≠ none) ∧
    (∀ d p, (run { n := n, fs := (NewNaive fs0 root fault).fs } calls).1.n.parents d
        = some p → p ≠ "" →
      (run { n := n, fs := (NewNaive fs0 root fault).fs } calls).1.n.parents p ≠ none) ∧
    (∀ d, (run { n := n, fs := (NewNaive fs0 root fault).fs } calls).1.n.Parent d ≠ "" →
      ∃ dst env, (Call.commit
          ((run { n := n, fs := (NewNaive fs0 root fault).fs } calls).1.n.Parent d)
          dst env, none) ∈
        (run { n := n, fs := (NewNaive fs0 root fault).fs } calls).2) := by
  obtain ⟨hact0, hpar0, _⟩ := NewNaive_empty fs0 root fault n hnew
  have hclosed := run_closed calls { n := n, fs := (NewNaive fs0 root fault).fs }
    (by intro dst a ha; rw [show n.active dst = none from by rw [hact0]; rfl] at ha
        exact Option.noConfusion ha)
    (by intro d p hp; rw [show n.parents d = none from by rw [hpar0]; rfl] at hp
        exact Option.noConfusion hp)
  refine ⟨?_, ?_, ?_⟩
  · intro dst a ha hne
    exact (hclosed.1 dst a ha).resolve_left hne
  · intro d p hp hne
    exact (hclosed.2 d p hp).resolve_left hne
  · intro d hd
    generalize hW : run { n := n, fs := (NewNaive fs0 root fault).fs } calls = R at *
    have hkey : R.1.n.parents (R.1.n.Parent d) ≠ none := by
      cases hp : R.1.n.parents d with
      | none => simp [Naive.Parent, hp] at hd
      | some p =>
        have hpp : R.1.n.Parent d = p := by simp [Naive.Parent, hp]
        rw [hpp] at hd ⊢
        exact (hclosed.2 d p hp).resolve_left hd
    rw [← hW] at hkey ⊢
    rcases run_parents_key calls _ _ hkey with h0 | h1
    · exfalso
      apply h0
      show n.parents _ = none
      rw [hpar0]; rfl
    · exact h1

/-- Witness for C17 at the end of the concrete run: `L2` is recorded with the
non-empty parent `L1`, which is a key of the parent index. -/
theorem parent_closure_witness :
    (run { n := exN0, fs := (NewNaive exFs0 "r" none).fs } exChainCalls).1.n.parents "L2"
      = some "L1" ∧
    (run { n := exN0, fs := (NewNaive exFs0 "r" none).fs } exChainCalls).1.n.parents "L1"
      ≠ none :=
  ⟨by decide,
   (parent_closure exFs0 "r" none exN0 rfl exChainCalls).2.1 "L2" "L1" (by decide)
     (by decide)⟩

/-! ## Isolation between transactions -/

/-- Whatever its outcome, `Commit(diff, dst)` on an active `dst` changes no
path outside the metadata directory of `dst` and outside `diff`. -/
theorem Commit_frame (n : Naive) (fs : FS) (diff dst : String) (env : CommitEnv)
    (a : activeNaiveSnapshot) (hact : n.active dst = some a) (q : Path)
    (hm : under a.metadata q = false) (hd : under (pathOf diff) q = false) :
    stat (n.Commit fs diff dst env).fs q = stat fs q := by
  have hdata : under (join a.metadata "data") q = false := by
    cases h : under (join a.metadata "data") q with
    | false => rfl
    | true =>
      rw [under_trans (under_join_self a.metadata "data") h] at hm
      exact Bool.noConfusion hm
  unfold Naive.Commit
  rw [hact]
  dsimp only
  split_ifs
  · exact CopyDir_frame _ _ _ _ q hdata
  · exact (Rename_frame _ _ _ _ q hm hd).trans (CopyDir_frame _ _ _ _ q hdata)
  · exact (Rename_frame _ _ _ _ q hm hd).trans (CopyDir_frame _ _ _ _ q hdata)

/-- No call on `dst` changes the active-set entry of another destination. -/
theorem other_entry_kept (n : Naive) (fs : FS) (dst dst2 : String) (hne : dst2 ≠ dst) :
    (∀ parent env, (n.Prepare fs dst parent env).n.active dst2 = n.active dst2) ∧
    (∀ diff env, (n.Commit fs diff dst env).n.active dst2 = n.active dst2) ∧
    (∀ fault, (n.Rollback fs dst fault).n.active dst2 = n.active dst2) := by
  refine ⟨?_, ?_, ?_⟩
  · intro parent env
    rcases Prepare_manager_cases n fs dst parent env with hn | ⟨_, _, hact, _, _⟩
    · rw [hn]
    · rw [hact]; simp [GoMap.set, hne]
  · intro diff env
    by_cases hok : (n.Commit fs diff dst env).err = none
    · obtain ⟨_, _, _, hact, _⟩ := Commit_ok_manager n fs diff dst env hok
      rw [hact]; simp [GoMap.delete, hne]
    · rw [Commit_err_manager n fs diff dst env hok]
  · intro fault
    cases hact : n.active dst with
    | none =>
      have : (n.Rollback fs dst fault).n = n := by
        unfold Naive.Rollback; rw [hact]
      rw [this]
    | some a =>
      rw [(Rollback_active n fs dst fault a hact).2.1]
      simp [GoMap.delete, hne]

/-- C18 (as stated, refuted): with `a` and `b` both active (metadata
directories `r/active-1` and `r/active-2`), the successful
`Commit("r/active-2/x", "a")` puts a directory `x` into the metadata directory
of `b`. -/
theorem Commit_changes_other_metadata :
    exQ2.n.active "a" = some { parent := "", metadata := ["r", "active-1"] } ∧
    exQ2.n.active "b" = some { parent := "", metadata := ["r", "active-2"] } ∧
    (exQ2.n.Commit exQ2.fs "r/active-2/x" "a" exCommitEnv).err = none ∧
    stat exQ2.fs (["r", "active-2"] ++ ["x"]) = none ∧
    stat (exQ2.n.Commit exQ2.fs "r/active-2/x" "a" exCommitEnv).fs
      (["r", "active-2"] ++ ["x"]) = some Node.dir := by
  decide

/-- C18 (amended): for every state and distinct destinations `dst` and `dst2`
with `dst2` active, `Prepare(dst, _)`, `Commit(_, dst)` and `Rollback(dst)`
leave the active-set entry of `dst2` unchanged.  On disk `Prepare` changes
only paths at or below its new directory and `dst`, `Commit` only paths at or
below the metadata directory of `dst` and `diff`, `Rollback` only paths at or
below the metadata directory of `dst`; so the contents of the metadata
directory of `dst2` are unchanged whenever it is disjoint from those paths.
A `Prepare` that registers `dst` does so with a directory that did not exist
before, hence different from the metadata directory of `dst2` if that one is
on disk. -/
theorem other_transaction_isolated (n : Naive) (fs : FS) (dst dst2 : String)
    (a2 : activeNaiveSnapshot) (hne : dst2 ≠ dst) (h2 : n.active dst2 = some a2) :
    (∀ parent env,
      (n.Prepare fs dst parent env).n.active dst2 = some a2 ∧
      (∀ q, under (join (pathOf n.root) ("active-" ++ env.suffix)) q = false →
        under (pathOf dst) q = false →
        stat (n.Prepare fs dst parent env).fs q = stat fs q) ∧
      ((n.Prepare fs dst parent env).err = none → (parent = "" ∨ n.parents parent ≠ none) →
        stat fs a2.metadata ≠ none →
        (n.Prepare fs dst parent env).n.active dst =
          some { parent := parent,
                 metadata := join (pathOf n.root) ("active-" ++ env.suffix) } ∧
        join (pathOf n.root) ("active-" ++ env.suffix) ≠ a2.metadata)) ∧
    (∀ diff env,
      (n.Commit fs diff dst env).n.active dst2 = some a2 ∧
      (∀ a, n.active dst = some a → ∀ q, under a.metadata q = false →
        under (pathOf diff) q = false →
        stat (n.Commit fs diff dst env).fs q = stat fs q) ∧
      (n.active dst = none → (n.Commit fs diff dst env).fs = fs)) ∧
    (∀ fault,
      (n.Rollback fs dst fault).n.active dst2 = some a2 ∧
      (∀ a, n.active dst = some a → ∀ q, under a.metadata q = false →
        stat (n.Rollback fs dst fault).fs q = stat fs q) ∧
      (n.active dst = none → (n.Rollback fs dst fault).fs = fs)) := by
  obtain ⟨hP, hC, hR⟩ := other_entry_kept n fs dst dst2 hne
  refine ⟨?_, ?_, ?_⟩
  · intro parent env
    refine ⟨by rw [hP, h2], fun q hm hd => Prepare_frame n fs dst parent env q hm hd, ?_⟩
    intro hok hp hex
    refine ⟨by rw [Prepare_ok_registers n fs dst parent env hp hok, GoMap.set_same], ?_⟩
    intro heq
    have hfresh : stat fs (join (pathOf n.root) ("active-" ++ env.suffix)) = none := by
      by_cases hpe : parent = ""
      · subst hpe; exact (Prepare_ok_fs_noparent n fs dst env hok).1
      · exact (Prepare_ok_fs_parent n fs dst parent env hpe (hp.resolve_left hpe) hok).1
    rw [heq] at hfresh
    exact hex hfresh
  · intro diff env
    refine ⟨by rw [hC, h2], fun a ha q hm hd => Commit_frame n fs diff dst env a ha q hm hd,
      ?_⟩
    intro hnone
    unfold Naive.Commit
    rw [hnone]
  · intro fault
    refine ⟨by rw [hR, h2], ?_, ?_⟩
    · intro a ha q hq
      rw [(Rollback_active n fs dst fault a ha).2.2.2.2]
      exact RemoveAll_frame fs a.metadata fault q hq
    · intro hnone
      unfold Naive.Rollback
      rw [hnone]

/-- Witness for the amended C18 on the state with `a` and `b` active: the
`Commit("r/active-2/x", "a")` leaves the entry of `b` alone, and so does a
`Rollback("a")`, which also leaves the target file of `b` in place. -/
theorem other_transaction_isolated_witness :
    (exQ2.n.Commit exQ2.fs "r/active-2/x" "a" exCommitEnv).n.active "b" =
      some { parent := "", metadata := ["r", "active-2"] } ∧
    stat (exQ2.n.Rollback exQ2.fs "a" none).fs ["r", "active-2", "target"] =
      stat exQ2.fs ["r", "active-2", "target"] :=
  have h := other_transaction_isolated exQ2.n exQ2.fs "a" "b"
    { parent := "", metadata := ["r", "active-2"] } (by decide) (by decide)
  ⟨(h.2.1 "r/active-2/x" exCommitEnv).1,
   (h.2.2 none).2.1 { parent := "", metadata := ["r", "active-1"] } (by decide)
     ["r", "active-2", "target"] (by decide)⟩

/-! ## Active transactions and their directories -/

end naive
